import Mathlib

/-!
Verification development for the pgshovel administration, consumption and
stream-batching core.  The definitions below are a shallow embedding of the
Python sources (`pgshovel/administration.py`, `pgshovel/streams/batches.py`,
`pgshovel/consumer/worker.py`); pure functions become Lean functions and the
stateful orchestration code becomes explicit state passing over small state
types.  Helpers of the repository that live outside the packaged sources
(`pgshovel.utilities`, `pgshovel.database`, `pgshovel.cluster`,
`pgshovel.replication.validation`) are modelled from the specification and
are marked as such in their doc comments.
-/

namespace Pgshovel

/-- Fuel-driven helper for `unique`; the fuel is an upper bound on the list
length, so the recursion is structural and computable by reduction. -/
def uniqueF {α : Type} [DecidableEq α] : Nat → List α → List α
  | _, [] => []
  | 0, _ :: _ => []
  | n + 1, x :: xs => x :: uniqueF n (xs.filter (fun y => y ≠ x))

/-- Modelled from the spec: `pgshovel.utilities.unique` (not among the
packaged sources).  Order-preserving de-duplication, keeping the first
occurrence of every element ("preserving first-seen order"). -/
def unique {α : Type} [DecidableEq α] (l : List α) : List α :=
  uniqueF l.length l

/-- Lookup of the first row carrying a key, mirroring a
`SELECT value FROM configuration WHERE key = ...` probe. -/
def lookupKV (key : String) : List (String × String) → Option String
  | [] => none
  | r :: rs => if r.1 = key then some r.2 else lookupKV key rs

/-! ## Database bootstrap (`setup_database`, administration.py lines 88-126)

The observable state of the pgshovel installation on one Postgres database.
The `configuration` table is a list of key/value rows (`rows`), kept in
insertion order; `logFn` is the body of the installed trigger function. -/
structure DbState where
  hasPgq : Bool
  hasPlpythonu : Bool
  hasSchema : Bool
  hasConfigTable : Bool
  rows : List (String × String)
  logFn : Option String
deriving DecidableEq, Repr

/-- Modelled from the spec: `pgshovel.database.get_configuration_value`
(not among the packaged sources) reads the value stored under a key of the
`configuration` table, or nothing when the key is absent. -/
def getConfigurationValue (rows : List (String × String)) (key : String) :
    Option String :=
  lookupKV key rows

/-- Modelled from the spec: `pgshovel.database.set_configuration_value`
inserts a fresh row for a key that is not present. -/
def setConfigurationValue (rows : List (String × String)) (key value : String) :
    List (String × String) :=
  rows ++ [(key, value)]

/-- Modelled from the spec: `pgshovel.database.update_configuration_value`
overwrites the value of an existing key in place. -/
def updateConfigurationValue (rows : List (String × String))
    (key value : String) : List (String × String) :=
  rows.map (fun r => if r.1 = key then (key, value) else r)

/-- The rendered body of the log trigger function; it embeds the running
software version (administration.py lines 63-85). -/
def renderLogTrigger (runningVersion : String) : String :=
  "# Generated by pgshovel==" ++ runningVersion

/-- Modelled from the spec: `pgshovel.database.get_or_set_node_identifier`
returns the stored `node_id`, inserting a fresh client-generated UUID when
none is present. -/
def getOrSetNodeIdentifier (rows : List (String × String)) (freshId : String) :
    List (String × String) × String :=
  match lookupKV "node_id" rows with
  | some n => (rows, n)
  | none => (setConfigurationValue rows "node_id" freshId, freshId)

/-- `setup_database` (administration.py lines 88-126): ensure the queue
extension, language, schema and configuration table exist; insert or update
the stored `version` to the running version; assign a `node_id` if absent;
always overwrite the log trigger function.  Returns the new state and the
node identifier. -/
def setup_database (runningVersion freshId : String) (db : DbState) :
    DbState × String :=
  let db1 : DbState :=
    { db with hasPgq := true, hasPlpythonu := true, hasSchema := true,
              hasConfigTable := true }
  let rows1 :=
    match getConfigurationValue db1.rows "version" with
    | none => setConfigurationValue db1.rows "version" runningVersion
    | some v =>
        if v ≠ runningVersion then
          updateConfigurationValue db1.rows "version" runningVersion
        else db1.rows
  let step := getOrSetNodeIdentifier rows1 freshId
  ({ db1 with rows := step.1,
              logFn := some (renderLogTrigger runningVersion) },
   step.2)

/-! ## Replication set configurations (`configurations_pb2`) -/
structure DatabaseCfg where
  dsn : String
deriving DecidableEq, Repr

structure TableCfg where
  schema : String
  name : String
  primary_keys : List String
  columns : List String
deriving DecidableEq, Repr

structure SetCfg where
  databases : List DatabaseCfg
  tables : List TableCfg
deriving DecidableEq, Repr

/-! ## Error taxonomy of the administration core

The Python source raises these as `psycopg2` errors or `AssertionError`s
with distinguishing messages; they are modelled as distinct kinds. -/
inductive AdminError
  | setMustHaveDatabases
  | duplicateDatabase (dsn : String)
  | missingPrimaryKeys (schema table : String)
  | connectionFailed (dsn : String)
  | notConfigured (dsn : String)
  | nodeIdMissing (dsn : String)
  | versionMismatch (localVersion nodeVersion : String)
  | possibleDeadlock (dsn : String)
  | duplicateNode (dsn1 dsn2 : String)
  | foundDuplicates
  | commitFailed (txn : String)
  | storeConflict
  | setNotFound (name : String)
  | cannotDowngrade (stored running : String)
deriving DecidableEq, Repr

/-- Observable external effects of an administration run, in order:
coordination-store transaction starts and commits, Postgres connections,
probe commits, and the commit phase of managed Postgres transactions. -/
inductive Event
  | storeTxStart (checkVersion : Bool)
  | connect (dsn : String)
  | probeCommit (dsn : String)
  | pgCommit (txn : String)
  | pgCommitFailed (txn : String)
  | pgAbort (txn : String)
  | storeCommit
  | storeCommitFailed
  | storeAbort
deriving DecidableEq, Repr

/-- The world an administration run executes against: DSN resolution to a
physical database instance, the per-instance database state, the fresh UUID
a setup via a given DSN would generate, the running software version, the
coordination store contents, and the outcome of each commit. -/
structure Env where
  resolve : String → Option Nat
  db : Nat → DbState
  fresh : String → String
  runningVersion : String
  storeClusterVersion : String
  storeSets : List (String × SetCfg)
  pgOk : String → Bool
  storeHealthy : Bool

def exceptOk {α : Type} : Except AdminError α → Bool
  | .ok _ => true
  | .error _ => false

/-- Modelled from the spec: the commit phase `with managed(transactions):
commit(ztransaction)` (`pgshovel.utilities.postgresql.managed` and
`pgshovel.utilities.zookeeper.commit` are not among the packaged sources).
The open Postgres transactions commit first, in list order; if one commit
fails the remainder and the coordination-store transaction are aborted;
after all Postgres commits succeed the coordination-store transaction
commits last (and a failure of that final commit is reported). -/
def managedRun (pgOk : String → Bool) (storeOk : Bool) :
    List String → List Event × Option AdminError
  | [] =>
      if storeOk then ([.storeCommit], none)
      else ([.storeCommitFailed], some .storeConflict)
  | t :: ts =>
      if pgOk t then
        let r := managedRun pgOk storeOk ts
        (.pgCommit t :: r.1, r.2)
      else
        (.pgCommitFailed t :: (ts.map Event.pgAbort ++ [.storeAbort]),
         some (.commitFailed t))

/-- Loop state of `get_managed_databases`: the `nodes` map in insertion order
(node id to DSN, the DSN standing for its open connection), the instances on
which this call holds the setup advisory lock, and the labels of the open
setup transactions. -/
structure GmdSt where
  nodes : List (String × String)
  locked : List Nat
  txns : List String
deriving DecidableEq, Repr

/-- One iteration of the DSN loop of `get_managed_databases`: connect, probe
for the node id, either verify the stored version and commit the probe, or
take the advisory lock and run `setup_database` in a kept-open transaction;
finally refuse duplicate node ids.  Returns the new state, the events this
iteration emitted, and an error if the iteration raised. -/
def gmdStep (env : Env) (configure skip : Bool) (st : GmdSt) (dsn : String) :
    GmdSt × List Event × Option AdminError :=
  match env.resolve dsn with
  | none =>
    if skip then (st, [], none)
    else (st, [], some (.connectionFailed dsn))
  | some inst =>
    let db := env.db inst
    if db.hasConfigTable then
      match lookupKV "node_id" db.rows with
      | none => (st, [.connect dsn], some (.nodeIdMissing dsn))
      | some nodeId =>
        let ver := (lookupKV "version" db.rows).getD "None"
        if ver ≠ env.runningVersion then
          (st, [.connect dsn], some (.versionMismatch env.runningVersion ver))
        else
          match lookupKV nodeId st.nodes with
          | some prevDsn =>
            (st, [.connect dsn, .probeCommit dsn],
             some (.duplicateNode prevDsn dsn))
          | none =>
            ({ st with nodes := st.nodes ++ [(nodeId, dsn)] },
             [.connect dsn, .probeCommit dsn], none)
    else
      if configure = false then
        (st, [.connect dsn], some (.notConfigured dsn))
      else if st.locked.contains inst then
        (st, [.connect dsn], some (.possibleDeadlock dsn))
      else
        let setup := setup_database env.runningVersion (env.fresh dsn) db
        match lookupKV setup.2 st.nodes with
        | some prevDsn =>
          (st, [.connect dsn], some (.duplicateNode prevDsn dsn))
        | none =>
          ({ st with nodes := st.nodes ++ [(setup.2, dsn)],
                     locked := inst :: st.locked,
                     txns := st.txns ++ ["setup-database:" ++ dsn] },
           [.connect dsn], none)

def gmdLoop (env : Env) (configure skip : Bool) :
    List String → GmdSt → GmdSt × List Event × Option AdminError
  | [], st => (st, [], none)
  | d :: ds, st =>
    let r := gmdStep env configure skip st d
    match r.2.2 with
    | some e => (r.1, r.2.1, some e)
    | none =>
      let rest := gmdLoop env configure skip ds r.1
      (rest.1, r.2.1 ++ rest.2.1, rest.2.2)

/-- `get_managed_databases` (administration.py lines 129-228): empty input
short-circuits to an empty map; otherwise a coordination-store transaction
is started (with a cluster version check unless `same_version` is false),
every DSN is processed in order, and when any setup transactions were opened
they are committed followed by the coordination-store transaction. -/
def get_managed_databases (env : Env) (dsns : List String)
    (configure skip sameVersion : Bool) :
    Except AdminError (List (String × String)) × List Event :=
  if dsns.isEmpty then (.ok [], [])
  else
    let r := gmdLoop env configure skip dsns ⟨[], [], []⟩
    let ev := Event.storeTxStart sameVersion :: r.2.1
    match r.2.2 with
    | some e => (.error e, ev)
    | none =>
      if r.1.txns.isEmpty then (.ok r.1.nodes, ev)
      else
        let storeOk := env.storeHealthy &&
          (!sameVersion || env.storeClusterVersion == env.runningVersion)
        let mr := managedRun env.pgOk storeOk r.1.txns
        ((match mr.2 with
          | none => .ok r.1.nodes
          | some e => .error e), ev ++ mr.1)

/-! ## Set configuration validation and the administration operations
(administration.py lines 332-343 and 383-561) -/
def validateDatabases (seen : List String) :
    List DatabaseCfg → Option AdminError
  | [] => none
  | d :: ds =>
      if seen.contains d.dsn then some (.duplicateDatabase d.dsn)
      else validateDatabases (d.dsn :: seen) ds

def validateTables : List TableCfg → Option AdminError
  | [] => none
  | t :: ts =>
      if t.primary_keys.isEmpty then
        some (.missingPrimaryKeys t.schema t.name)
      else validateTables ts

/-- `validate_set_configuration` (administration.py lines 332-343): a set
must have databases, duplicate DSNs are not allowed, and every table needs
at least one primary key column. -/
def validate_set_configuration (cfg : SetCfg) : Option AdminError :=
  if cfg.databases.isEmpty then some .setMustHaveDatabases
  else
    match validateDatabases [] cfg.databases with
    | some e => some e
    | none => validateTables cfg.tables

/-- `create_set` (administration.py lines 440-463): validate, acquire the
managed databases, configure the set inside each open Postgres transaction,
stage the creation of the set node in the coordination-store transaction,
then commit the Postgres transactions followed by the store transaction. -/
def create_set (env : Env) (name : String) (cfg : SetCfg) :
    Except AdminError Unit × List Event :=
  match validate_set_configuration cfg with
  | some e => (.error e, [])
  | none =>
    let r := get_managed_databases env (cfg.databases.map (·.dsn))
      true false true
    match r.1 with
    | .error e => (.error e, r.2)
    | .ok nodes =>
      let ev := r.2 ++ [Event.storeTxStart true]
      let txns := nodes.map (fun nd => "create-set:" ++ name ++ ":" ++ nd.2)
      let storeOk := env.storeHealthy
        && env.storeClusterVersion == env.runningVersion
        && !(env.storeSets.any (fun s => s.1 == name))
      let mr := managedRun env.pgOk storeOk txns
      ((match mr.2 with
        | none => .ok ()
        | some e => .error e), ev ++ mr.1)

/-- Find a replication set configuration by name in the coordination store
(the read side of `fetch_sets`). -/
def lookupKVSet (sets : List (String × SetCfg)) (name : String) :
    Option SetCfg :=
  match sets with
  | [] => none
  | s :: ss => if s.1 = name then some s.2 else lookupKVSet ss name

def listInter (a b : List String) : List String :=
  a.filter (fun x => b.contains x)

def listDiff (a b : List String) : List String :=
  a.filter (fun x => !b.contains x)

/-- `update_set` (administration.py lines 466-528): fetch the current
configuration, classify databases into additions, mutations and deletions,
acquire each class, reject node ids occurring in more than one class,
apply the per-class DDL in open transactions, stage the store write, and
commit Postgres first, store last. -/
def update_set (env : Env) (name : String) (cfg : SetCfg) (force : Bool) :
    Except AdminError Unit × List Event :=
  match validate_set_configuration cfg with
  | some e => (.error e, [])
  | none =>
    match lookupKVSet env.storeSets name with
    | none => (.error (.setNotFound name), [])
    | some current =>
      let currentD := unique (current.databases.map (·.dsn))
      let updatedD := unique (cfg.databases.map (·.dsn))
      let ra := get_managed_databases env (listDiff updatedD currentD)
        true false true
      match ra.1 with
      | .error e => (.error e, ra.2)
      | .ok additions =>
        let rm := get_managed_databases env (listInter updatedD currentD)
          true false true
        match rm.1 with
        | .error e => (.error e, ra.2 ++ rm.2)
        | .ok mutations =>
          let rd := get_managed_databases env (listDiff currentD updatedD)
            true force true
          match rd.1 with
          | .error e => (.error e, ra.2 ++ rm.2 ++ rd.2)
          | .ok deletions =>
            let allNodes := additions.map (·.1) ++ mutations.map (·.1)
              ++ deletions.map (·.1)
            if unique allNodes ≠ allNodes then
              (.error .foundDuplicates, ra.2 ++ rm.2 ++ rd.2)
            else
              let ev := ra.2 ++ rm.2 ++ rd.2 ++ [Event.storeTxStart true]
              let txns :=
                additions.map
                  (fun nd => "update-set:create:" ++ name ++ ":" ++ nd.2)
                ++ mutations.map
                  (fun nd => "update-set:update:" ++ name ++ ":" ++ nd.2)
                ++ deletions.map
                  (fun nd => "update-set:delete:" ++ name ++ ":" ++ nd.2)
              let storeOk := env.storeHealthy
                && env.storeClusterVersion == env.runningVersion
              let mr := managedRun env.pgOk storeOk txns
              ((match mr.2 with
                | none => .ok ()
                | some e => .error e), ev ++ mr.1)

/-- `drop_set` (administration.py lines 531-561): fetch the configuration,
acquire the listed databases without implicit configuration, unconfigure
each inside an open transaction, stage the deletion of the store node, and
commit Postgres first, store last. -/
def drop_set (env : Env) (name : String) (force : Bool) :
    Except AdminError Unit × List Event :=
  match lookupKVSet env.storeSets name with
  | none => (.error (.setNotFound name), [])
  | some cfg =>
    let r := get_managed_databases env (cfg.databases.map (·.dsn))
      false force true
    match r.1 with
    | .error e => (.error e, r.2)
    | .ok deletions =>
      let ev := r.2 ++ [Event.storeTxStart true]
      let txns := deletions.map
        (fun nd => "drop-set:" ++ name ++ ":" ++ nd.2)
      let storeOk := env.storeHealthy
        && env.storeClusterVersion == env.runningVersion
      let mr := managedRun env.pgOk storeOk txns
      ((match mr.2 with
        | none => .ok ()
        | some e => .error e), ev ++ mr.1)

def parseVersion (s : String) : List Nat :=
  (s.splitOn ".").map (fun p => p.toNat?.getD 0)

def lexLt : List Nat → List Nat → Bool
  | [], [] => false
  | [], _ :: _ => true
  | _ :: _, [] => false
  | a :: as, b :: bs =>
      if a < b then true else if b < a then false else lexLt as bs

def versionLt (a b : String) : Bool :=
  lexLt (parseVersion a) (parseVersion b)

/-- `upgrade_cluster` (administration.py lines 396-435): read the cluster
configuration, refuse downgrades unless forced, stage the version bump in
the coordination-store transaction, collect the union of the DSNs of all
sets, acquire them without configuration and without the version check,
re-run `setup_database` on each inside an open transaction, and commit the
Postgres transactions followed by the store transaction. -/
def upgrade_cluster (env : Env) (force : Bool) :
    Except AdminError Unit × List Event :=
  if ¬(versionLt env.storeClusterVersion env.runningVersion || force) then
    (.error (.cannotDowngrade env.storeClusterVersion env.runningVersion), [])
  else
    let ev0 := [Event.storeTxStart false]
    let dsns := unique
      (env.storeSets.flatMap (fun s => s.2.databases.map (·.dsn)))
    let r := get_managed_databases env dsns false false false
    match r.1 with
    | .error e => (.error e, ev0 ++ r.2)
    | .ok nodes =>
      let txns := nodes.map (fun nd => "update-cluster:" ++ nd.2)
      let storeOk := env.storeHealthy
      let mr := managedRun env.pgOk storeOk txns
      ((match mr.2 with
        | none => .ok ()
        | some e => .error e), ev0 ++ r.2 ++ mr.1)

/-- The five mutating administration entry points of claim C1. -/
inductive AdminOp
  | opCreate (name : String) (cfg : SetCfg)
  | opUpdate (name : String) (cfg : SetCfg) (force : Bool)
  | opDrop (name : String) (force : Bool)
  | opUpgrade (force : Bool)
  | opAcquire (dsns : List String) (configure skip sameVersion : Bool)

def runAdmin (op : AdminOp) (env : Env) :
    Except AdminError Unit × List Event :=
  match op with
  | .opCreate name cfg => create_set env name cfg
  | .opUpdate name cfg force => update_set env name cfg force
  | .opDrop name force => drop_set env name force
  | .opUpgrade force => upgrade_cluster env force
  | .opAcquire dsns c s v =>
      let r := get_managed_databases env dsns c s v
      (r.1.map (fun _ => ()), r.2)

/-- The last element of an event trace. -/
def lastEv : List Event → Option Event
  | [] => none
  | [e] => some e
  | _ :: e :: es => lastEv (e :: es)

/-- Events that may appear on a success trace before or at the final
coordination-store commit: everything except a failed Postgres commit, a
failed store commit and an abort. -/
def cleanEvent : Event → Bool
  | .pgCommitFailed _ => false
  | .storeCommitFailed => false
  | .storeAbort => false
  | _ => true

/-- Events emitted by the acquirer loop itself (before any commit phase). -/
def benignEvent : Event → Bool
  | .storeTxStart _ => true
  | .connect _ => true
  | .probeCommit _ => true
  | _ => false

/-- The clauses of claim C1 for a finished operation: on success the trace
is free of commit failures and, when a coordination-store commit happened at
all, it is the last event of the trace; a failed store commit can only be
the final event, after every Postgres commit of its phase succeeded; a
failed Postgres commit forces an aborted store transaction as final event. -/
def AdminP (tr : List Event) (okb : Bool) : Prop :=
  (okb = true →
    (Event.storeCommit ∈ tr → lastEv tr = some Event.storeCommit)
    ∧ tr.all cleanEvent = true)
  ∧ (Event.storeCommitFailed ∈ tr →
      lastEv tr = some Event.storeCommitFailed ∧ okb = false
      ∧ ∀ t, Event.pgCommitFailed t ∉ tr)
  ∧ (∀ t, Event.pgCommitFailed t ∈ tr →
      lastEv tr = some Event.storeAbort ∧ okb = false)

/-- Strengthening of `AdminP` for operations whose success path always ends
in a coordination-store commit. -/
def TailP (tr : List Event) (okb : Bool) : Prop :=
  (okb = true →
    lastEv tr = some Event.storeCommit ∧ tr.all cleanEvent = true)
  ∧ (Event.storeCommitFailed ∈ tr →
      lastEv tr = some Event.storeCommitFailed ∧ okb = false
      ∧ ∀ t, Event.pgCommitFailed t ∉ tr)
  ∧ (∀ t, Event.pgCommitFailed t ∈ tr →
      lastEv tr = some Event.storeAbort ∧ okb = false)

def opCommitsStore : AdminOp → Bool
  | .opAcquire _ _ _ _ => false
  | _ => true

/-- A concrete environment with one configured database, used to exercise
the success path of `create_set`. -/
def envW : Env where
  resolve := fun d => if d = "d1" then some 0 else none
  db := fun _ =>
    ⟨true, true, true, true, [("node_id", "n0"), ("version", "0.2")], none⟩
  fresh := fun _ => "u0"
  runningVersion := "0.2"
  storeClusterVersion := "0.2"
  storeSets := []
  pgOk := fun _ => true
  storeHealthy := true

/-- Environment for claim C2: one reachable database that is already
configured, but with an older stored version (0.1) than the running
software version (0.2). -/
def envC2 : Env where
  resolve := fun d => if d = "d-old" then some 0 else none
  db := fun _ =>
    ⟨true, true, true, true, [("node_id", "n0"), ("version", "0.1")], none⟩
  fresh := fun _ => "u0"
  runningVersion := "0.2"
  storeClusterVersion := "0.2"
  storeSets := []
  pgOk := fun _ => true
  storeHealthy := true

/-- Configuration listing the same DSN twice, the input of claim C8. -/
def cfgDup : SetCfg := ⟨[⟨"d1"⟩, ⟨"d1"⟩], []⟩

/-- A database instance the acquirer can process without raising an error of
its own: already configured with a stored node id and the running version,
or unconfigured while implicit configuration is allowed. -/
def NodeAcceptable (env : Env) (c : Bool) (inst : Nat) : Prop :=
  if (env.db inst).hasConfigTable = true then
    (lookupKV "node_id" (env.db inst).rows).isSome = true
    ∧ (lookupKV "version" (env.db inst).rows).getD "None" = env.runningVersion
  else c = true

/-- The node id under which a DSN would be entered into the acquirer's map:
the stored node id for a configured instance, the id assigned by
`setup_database` otherwise. -/
def gmdNodeId (env : Env) (d : String) : Option String :=
  match env.resolve d with
  | none => none
  | some inst =>
    if (env.db inst).hasConfigTable = true then
      lookupKV "node_id" (env.db inst).rows
    else some (setup_database env.runningVersion (env.fresh d) (env.db inst)).2

/-- Invariant of the acquirer's DSN loop over the processed prefix `P`:
the node map has exactly one entry per distinct resolved instance, every
unconfigured processed instance holds the advisory lock, and every processed
DSN's node id is present in the map. -/
def GmdInv (env : Env) (P : List String) (st : GmdSt) : Prop :=
  st.nodes.length = (unique (P.filterMap env.resolve)).length
  ∧ (∀ d ∈ P, ∀ inst, env.resolve d = some inst →
      (env.db inst).hasConfigTable = false → st.locked.contains inst = true)
  ∧ (∀ d ∈ P, ∀ n, gmdNodeId env d = some n → ∃ q, (n, q) ∈ st.nodes)

/-- Environment for the C3 counterexample: two DSNs `a` and `b` both
resolving to the same uninitialized database instance. -/
def envC3 : Env where
  resolve := fun d => if d = "a" ∨ d = "b" then some 0 else none
  db := fun _ => ⟨false, false, false, false, [], none⟩
  fresh := fun d => "u-" ++ d
  runningVersion := "0.2"
  storeClusterVersion := "0.2"
  storeSets := []
  pgOk := fun _ => true
  storeHealthy := true

/-- An MD5 digest; `md5` stands for the external `hashlib.md5(...).hexdigest`
primitive, modelled as an injective wrapper of its input bytes. -/
structure Digest where
  bytes : List Nat
deriving DecidableEq, Repr

def md5 (b : List Nat) : Digest := ⟨b⟩

def encodeString (s : String) : List Nat :=
  s.length :: s.toList.map Char.toNat

/-- Modelled from the spec: the protobuf `SerializeToString` canonical
encoding of a `ReplicationSetConfiguration` ("any stable binary encoding
with field tags suffices", spec 4.A). -/
def serializeConfig (cfg : SetCfg) : List Nat :=
  [cfg.databases.length]
  ++ cfg.databases.flatMap (fun d => encodeString d.dsn)
  ++ [cfg.tables.length]
  ++ cfg.tables.flatMap (fun t =>
      encodeString t.schema ++ encodeString t.name
      ++ [t.primary_keys.length] ++ t.primary_keys.flatMap encodeString
      ++ [t.columns.length] ++ t.columns.flatMap encodeString)

/-- `get_version` (administration.py lines 290-294): the MD5 hash of the
canonical encoded bytes of the configuration. -/
def get_version (cfg : SetCfg) : Digest :=
  md5 (serializeConfig cfg)

/-- A `cPickle.dumps` payload, modelled as an injective wrapper of the
encoded list (the trigger body is its sole consumer). -/
structure Pickled where
  items : List String
deriving DecidableEq, Repr

def pickleDumps (l : List String) : Pickled := ⟨l⟩

/-- Modelled from the spec: the cluster handle's `get_queue_name`
(queue `<cluster>_<set>`, spec section 3). -/
def get_queue_name (clusterName setName : String) : String :=
  clusterName ++ "_" ++ setName

/-- The trigger created on one table: the `UPDATE OF` column list and the
four positional arguments handed to the audit procedure. -/
structure TriggerSpec where
  tableSchema : String
  tableName : String
  updateOfColumns : List String
  argQueue : String
  argPrimaryKeys : Pickled
  argColumns : Pickled
  argVersion : Digest
deriving DecidableEq, Repr

/-- `setup_triggers` (administration.py lines 234-273): for each table the
primary keys are deduplicated, the `UPDATE OF` columns are
`unique(primary_keys ++ columns)`, and the audit function receives the
queue name, the pickled primary keys, the pickled column list and the
configuration version fingerprint. -/
def setup_triggers (clusterName name : String) (cfg : SetCfg) :
    List TriggerSpec :=
  cfg.tables.map (fun t =>
    let primary_keys := unique t.primary_keys
    let columns := unique (primary_keys ++ t.columns)
    { tableSchema := t.schema
      tableName := t.name
      updateOfColumns := columns
      argQueue := get_queue_name clusterName name
      argPrimaryKeys := pickleDumps primary_keys
      argColumns := pickleDumps columns
      argVersion := get_version cfg })

/-- A batch identifier `(id, node)` (spec section 6). -/
structure BatchId where
  id : Nat
  node : Nat
deriving DecidableEq, Repr

/-- The operation taxonomy of a `BatchOperation` (streams_pb2). -/
inductive BatchOp
  | beginOp (b : BatchId)
  | mutationOp (data : Nat)
  | commitOp
  | rollbackOp
deriving DecidableEq, Repr

/-- A header-wrapped stream message. -/
structure Message where
  publisher : Nat
  sequence : Nat
  op : BatchOp
deriving DecidableEq, Repr

/-- The transaction-validator states (spec 4.I; also exercised by
tests/pgshovel/streams/states.py). -/
inductive TxState
  | noTransaction
  | inTransaction (publisher : Nat) (b : BatchId)
  | committed (publisher : Nat) (b : BatchId)
  | rolledBack (publisher : Nat) (b : BatchId)
deriving DecidableEq, Repr

/-- Modelled from the spec: one transition of the transaction validator
(`pgshovel.replication.validation.transactions` is not among the packaged
sources).  `Begin` is accepted from `NoTransaction`, from `Committed` when
the batch id advanced on the same node or the publisher changed, and from
`RolledBack` when the batch id did not advance on the same node or the
publisher changed; `Mutation`, `Commit` and `Rollback` require the same
publisher while in a transaction. -/
def txStep (s : TxState) (m : Message) : Option TxState :=
  match m.op, s with
  | .beginOp b, .noTransaction => some (.inTransaction m.publisher b)
  | .beginOp b, .committed p b0 =>
      if (m.publisher = p ∧ (b.node = b0.node → b0.id < b.id))
          ∨ m.publisher ≠ p then
        some (.inTransaction m.publisher b)
      else none
  | .beginOp b, .rolledBack p b0 =>
      if (m.publisher = p ∧ (b.node = b0.node → ¬b0.id < b.id))
          ∨ m.publisher ≠ p then
        some (.inTransaction m.publisher b)
      else none
  | .mutationOp _, .inTransaction p b =>
      if m.publisher = p then some (.inTransaction p b) else none
  | .commitOp, .inTransaction p b =>
      if m.publisher = p then some (.committed p b) else none
  | .rollbackOp, .inTransaction p b =>
      if m.publisher = p then some (.rolledBack p b) else none
  | _, _ => none

/-- Modelled from the spec: the stateful stream validator producing the
`(new_state, message)` trace, or failing on an invalid event. -/
def validateFrom : TxState → List Message → Option (List (TxState × Message))
  | _, [] => some []
  | s, m :: ms =>
    match txStep s m with
    | none => none
    | some s1 =>
      match validateFrom s1 ms with
      | none => none
      | some rest => some ((s1, m) :: rest)

def validate_transaction_state (ms : List Message) :
    Option (List (TxState × Message)) :=
  validateFrom .noTransaction ms

/-- The batch identifier carried by a validator state (`state.batch_identifier`
in batches.py line 86); `NoTransaction` carries none. -/
def stateBatchId : TxState → Option BatchId
  | .noTransaction => none
  | .inTransaction _ b => some b
  | .committed _ b => some b
  | .rolledBack _ b => some b

/-- The grouping key of `batched` (batches.py line 86):
`(message.header.publisher, state.batch_identifier)`. -/
def batchKey (sm : TxState × Message) : Nat × Option BatchId :=
  (sm.2.publisher, stateBatchId sm.1)

def groupRunsF {α κ : Type} [DecidableEq κ] (f : α → κ) :
    Nat → List α → List (α × List α)
  | _, [] => []
  | 0, _ :: _ => []
  | n + 1, x :: xs =>
      (x, xs.takeWhile (fun y => f y = f x))
        :: groupRunsF f n (xs.dropWhile (fun y => f y = f x))

/-- `itertools.groupby`: consecutive runs of elements with equal key, each
run as its first element and the rest of the run. -/
def groupRuns {α κ : Type} [DecidableEq κ] (f : α → κ) (l : List α) :
    List (α × List α) :=
  groupRunsF f l.length l

/-- The outcome of one group's mutation iterator. -/
inductive Terminator
  | committed
  | cancelled
  | aborted
deriving DecidableEq, Repr

/-- The mutation iterator of one group (`make_mutation_iterator`,
batches.py lines 65-84): `Begin` operations are skipped, mutations are
yielded, a `Commit` returns normally, a `Rollback` raises
`TransactionCancelled`, and exhausting the group without a terminal raises
`TransactionAborted`.  The result is the list of yielded mutations paired
with how the iterator terminated. -/
def mutationRun : List Message → List Nat × Terminator
  | [] => ([], .aborted)
  | m :: rest =>
    match m.op with
    | .beginOp _ => mutationRun rest
    | .mutationOp d =>
        let r := mutationRun rest
        (d :: r.1, r.2)
    | .commitOp => ([], .committed)
    | .rollbackOp => ([], .cancelled)

/-- `batched` (batches.py lines 51-88): group the validated `(state,
message)` stream by `(publisher, state.batch_identifier)` and yield, per
group, the batch identifier and the group's mutation iterator. -/
def batched (stream : List (TxState × Message)) :
    List (Option BatchId × (List Nat × Terminator)) :=
  (groupRuns batchKey stream).map (fun g =>
    (stateBatchId g.1.1, mutationRun (g.1.2 :: g.2.map (fun sm => sm.2))))

def isTerminalOp (m : Message) : Bool :=
  match m.op with
  | .commitOp => true
  | .rollbackOp => true
  | _ => false

/-- The subsequence of mutation payloads of a message list, in order. -/
def mutationsOf (ms : List Message) : List Nat :=
  ms.filterMap (fun m =>
    match m.op with
    | .mutationOp d => some d
    | _ => none)

/-- Specification-side description of the yielded mutations of a group: the
mutations occurring before the group's first terminal operation. -/
def groupMutations (ms : List Message) : List Nat :=
  mutationsOf (ms.takeWhile (fun m => !isTerminalOp m))

/-- Specification-side description of a group iterator's termination: decided
by the group's first terminal operation, `TransactionAborted` when none. -/
def groupTerminator (ms : List Message) : Terminator :=
  match ms.find? isTerminalOp with
  | some m =>
    match m.op with
    | .commitOp => .committed
    | _ => .cancelled
  | none => .aborted

/-- The S5 input stream: `[Begin(b=1), Mutation(m1)]`, then end of input. -/
def s5Input : List Message :=
  [⟨0, 0, .beginOp ⟨1, 0⟩⟩, ⟨0, 1, .mutationOp 7⟩]

def s5Validated : List (TxState × Message) :=
  [(.inTransaction 0 ⟨1, 0⟩, ⟨0, 0, .beginOp ⟨1, 0⟩⟩),
   (.inTransaction 0 ⟨1, 0⟩, ⟨0, 1, .mutationOp 7⟩)]

/-- A validated stream in which publisher 0 rolls back batch (1, 0) and then
retries it: `Begin, Mutation(10), Rollback, Begin, Mutation(11), Commit`.
All six states carry the same `(publisher, batch id)` key, so `groupby`
puts the retry into the SAME group as the rolled-back attempt. -/
def c5Input : List Message :=
  [⟨0, 0, .beginOp ⟨1, 0⟩⟩, ⟨0, 1, .mutationOp 10⟩, ⟨0, 2, .rollbackOp⟩,
   ⟨0, 3, .beginOp ⟨1, 0⟩⟩, ⟨0, 4, .mutationOp 11⟩, ⟨0, 5, .commitOp⟩]

def c5Validated : List (TxState × Message) :=
  [(.inTransaction 0 ⟨1, 0⟩, ⟨0, 0, .beginOp ⟨1, 0⟩⟩),
   (.inTransaction 0 ⟨1, 0⟩, ⟨0, 1, .mutationOp 10⟩),
   (.rolledBack 0 ⟨1, 0⟩, ⟨0, 2, .rollbackOp⟩),
   (.inTransaction 0 ⟨1, 0⟩, ⟨0, 3, .beginOp ⟨1, 0⟩⟩),
   (.inTransaction 0 ⟨1, 0⟩, ⟨0, 4, .mutationOp 11⟩),
   (.committed 0 ⟨1, 0⟩, ⟨0, 5, .commitOp⟩)]

/-- The scheduler-visible condition a consumer step runs under: whether the
ownership lease could be acquired now, and whether a held lease is still
held. -/
structure CEnv where
  lockAvailable : Bool
  lockStillHeld : Bool
deriving Repr

inductive CPhase
  | acquiringLease
  | registering
  | looping
  | stopped
  | failed
deriving DecidableEq, Repr

structure ConsumerState where
  phase : CPhase
  stopRequested : Bool
  lockHeld : Bool
deriving DecidableEq, Repr

/-- One scheduling step of `Consumer.run` (worker.py lines 77-131).  In the
`acquiringLease` phase the code executes `self._ownership_lock.acquire()`
with no timeout: the step succeeds only when the lock is available and —
faithfully to the `TODO: Don't block stop request` comment at line 80 —
never consults the stop flag.  The main loop (lines 99-131) checks the stop
flag first on every tick, then the lease, then drains at most one batch. -/
def consumerStep (env : CEnv) (s : ConsumerState) : ConsumerState :=
  match s.phase with
  | .acquiringLease =>
      if env.lockAvailable then
        { s with phase := .registering, lockHeld := true }
      else s
  | .registering => { s with phase := .looping }
  | .looping =>
      if s.stopRequested then { s with phase := .stopped, lockHeld := false }
      else if !env.lockStillHeld then { s with phase := .failed }
      else s
  | .stopped => s
  | .failed => s

/-- `Consumer.stop_async` (worker.py lines 133-138): set the stop flag. -/
def stop_async (s : ConsumerState) : ConsumerState :=
  { s with stopRequested := true }

def consumerIter (env : CEnv) : Nat → ConsumerState → ConsumerState
  | 0, s => s
  | n + 1, s => consumerIter env n (consumerStep env s)

/-- One loop iteration's external input: the commands enqueued by
`subscribe_async`/`unsubscribe_async` since the previous iteration, and
whether `stop_async` has set the stop flag by the time the loop checks it. -/
structure Tick where
  arrivals : List Nat
  stopSet : Bool
deriving DecidableEq, Repr

structure CoordState where
  queue : List Nat
  processed : List Nat
  stopped : Bool
deriving DecidableEq, Repr

/-- One iteration of `Coordinator.run` (worker.py lines 203-224): arriving
commands are enqueued; the loop first waits on the stop flag and breaks as
soon as it is set — WITHOUT draining the control queue and without touching
the pending futures — and otherwise drains every queued command, invoking
its operation and completing its future with the outcome. -/
def coordStep (st : CoordState) (t : Tick) : CoordState :=
  if st.stopped then st
  else
    let q := st.queue ++ t.arrivals
    if t.stopSet then { st with queue := q, stopped := true }
    else { queue := [], processed := st.processed ++ q, stopped := false }

def coordRun (ticks : List Tick) : CoordState :=
  ticks.foldl coordStep ⟨[], [], false⟩

inductive FutureState
  | pending
  | completedOutcome
  | cancelled
deriving DecidableEq, Repr

/-- The state of a command's future: completed with the operation's outcome
once the coordinator has dequeued and invoked it, pending otherwise; no
code path ever cancels a future. -/
def futureState (st : CoordState) (cmd : Nat) : FutureState :=
  if cmd ∈ st.processed then .completedOutcome else .pending


theorem uniqueF_congr {α : Type} [DecidableEq α] (n : Nat) :
    ∀ (m : Nat) (l : List α), l.length ≤ n → l.length ≤ m →
      uniqueF n l = uniqueF m l := by
  induction n with
  | zero =>
    intro m l hn _
    match l with
    | [] => cases m <;> rfl
  | succ n ih =>
    intro m l hn hm
    match l with
    | [] => cases m <;> rfl
    | x :: xs =>
      match m with
      | m + 1 =>
        simp only [uniqueF]
        congr 1
        have hlen : (xs.filter (fun y => y ≠ x)).length ≤ xs.length :=
          List.length_filter_le _ _
        exact ih m _ (le_trans hlen (Nat.le_of_succ_le_succ hn))
          (le_trans hlen (Nat.le_of_succ_le_succ hm))

theorem unique_nil {α : Type} [DecidableEq α] : unique ([] : List α) = [] :=
  rfl

theorem unique_cons {α : Type} [DecidableEq α] (x : α) (xs : List α) :
    unique (x :: xs) = x :: unique (xs.filter (fun y => y ≠ x)) := by
  simp only [unique, List.length_cons, uniqueF]
  congr 1
  exact uniqueF_congr xs.length _ _ (List.length_filter_le _ _) le_rfl

theorem filter_filter_same {α : Type} [DecidableEq α]
    (p : α → Bool) (l : List α) :
    (l.filter p).filter p = l.filter p := by
  induction l with
  | nil => rfl
  | cons a as ih =>
    by_cases h : p a
    · simp [List.filter_cons, h, ih]
    · simp [List.filter_cons, h, ih]

theorem filter_comm {α : Type} [DecidableEq α] (p q : α → Bool) (l : List α) :
    (l.filter p).filter q = (l.filter q).filter p := by
  induction l with
  | nil => rfl
  | cons a as ih =>
    by_cases hp : p a <;> by_cases hq : q a <;>
      simp [List.filter_cons, hp, hq, ih]

theorem filter_unique_aux {α : Type} [DecidableEq α] (p : α → Bool) (n : Nat) :
    ∀ l : List α, l.length ≤ n →
      (unique l).filter p = unique (l.filter p) := by
  induction n with
  | zero =>
    intro l hl
    match l with
    | [] => simp [unique_nil]
  | succ n ih =>
    intro l hl
    match l with
    | [] => simp [unique_nil]
    | x :: xs =>
      have hle : (xs.filter (fun y => y ≠ x)).length ≤ n :=
        le_trans (List.length_filter_le _ _)
          (Nat.le_of_succ_le_succ (by simpa using hl))
      rw [unique_cons]
      by_cases hx : p x
      · rw [List.filter_cons, if_pos hx, List.filter_cons, if_pos hx,
          unique_cons]
        congr 1
        rw [ih _ hle, filter_comm]
      · rw [List.filter_cons, if_neg hx, List.filter_cons, if_neg hx]
        rw [ih _ hle, filter_comm]
        have hxp : (xs.filter p).filter (fun y => decide (y ≠ x))
            = xs.filter p := by
          apply List.filter_eq_self.mpr
          intro a ha
          have hpa : p a := (List.mem_filter.mp ha).2
          have hax : a ≠ x := fun he => hx (he ▸ hpa)
          simpa using hax
        rw [hxp]

theorem filter_unique {α : Type} [DecidableEq α] (p : α → Bool) (l : List α) :
    (unique l).filter p = unique (l.filter p) :=
  filter_unique_aux p l.length l le_rfl

/-- Deduplicating an already partially deduplicated concatenation gives the
same result as deduplicating the raw concatenation: the extra inner pass of
`unique` over the primary keys is absorbed. -/
theorem unique_unique_append_aux {α : Type} [DecidableEq α] (n : Nat) :
    ∀ a b : List α, a.length ≤ n →
      unique (unique a ++ b) = unique (a ++ b) := by
  induction n with
  | zero =>
    intro a b ha
    match a with
    | [] => simp [unique_nil]
  | succ n ih =>
    intro a b ha
    match a with
    | [] => simp [unique_nil]
    | x :: xs =>
      have hle : (xs.filter (fun y => y ≠ x)).length ≤ n :=
        le_trans (List.length_filter_le _ _)
          (Nat.le_of_succ_le_succ (by simpa using ha))
      rw [unique_cons, List.cons_append, unique_cons, List.cons_append,
        unique_cons]
      congr 1
      rw [List.filter_append, List.filter_append, filter_unique,
        filter_filter_same]
      exact ih _ _ hle

theorem unique_unique_append {α : Type} [DecidableEq α] (a b : List α) :
    unique (unique a ++ b) = unique (a ++ b) :=
  unique_unique_append_aux a.length a b le_rfl

theorem lookupKV_append (key : String) (a b : List (String × String)) :
    lookupKV key (a ++ b) =
      match lookupKV key a with
      | some v => some v
      | none => lookupKV key b := by
  induction a with
  | nil => simp [lookupKV]
  | cons r rs ih =>
    by_cases h : r.1 = key
    · simp [lookupKV, h]
    · simp [lookupKV, h, ih]

theorem lookupKV_setConfigurationValue_self (rows : List (String × String))
    (key value : String) (h : lookupKV key rows = none) :
    lookupKV key (setConfigurationValue rows key value) = some value := by
  rw [setConfigurationValue, lookupKV_append, h]
  simp [lookupKV]

theorem lookupKV_setConfigurationValue_other (rows : List (String × String))
    (key value k : String) (h : k ≠ key) :
    lookupKV k (setConfigurationValue rows key value) = lookupKV k rows := by
  rw [setConfigurationValue, lookupKV_append]
  cases hr : lookupKV k rows with
  | some v => rfl
  | none =>
    simp only [lookupKV]
    rw [if_neg (fun he => h he.symm)]

theorem lookupKV_updateConfigurationValue_self (rows : List (String × String))
    (key value v0 : String) (h : lookupKV key rows = some v0) :
    lookupKV key (updateConfigurationValue rows key value) = some value := by
  induction rows with
  | nil => simp [lookupKV] at h
  | cons r rs ih =>
    by_cases hk : r.1 = key
    · simp [updateConfigurationValue, hk, lookupKV]
    · simp only [updateConfigurationValue, List.map_cons, if_neg hk]
      simp only [lookupKV, if_neg hk]
      simp only [lookupKV, if_neg hk] at h
      exact ih h

theorem lookupKV_updateConfigurationValue_other (rows : List (String × String))
    (key value k : String) (h : k ≠ key) :
    lookupKV k (updateConfigurationValue rows key value) = lookupKV k rows := by
  induction rows with
  | nil => rfl
  | cons r rs ih =>
    by_cases hk : r.1 = key
    · simp only [updateConfigurationValue, List.map_cons, if_pos hk]
      simp only [lookupKV]
      rw [if_neg (fun he : key = k => h he.symm),
        if_neg (fun he : r.1 = k => h (he.symm.trans hk))]
      exact ih
    · simp only [updateConfigurationValue, List.map_cons, if_neg hk]
      simp only [lookupKV]
      by_cases hrk : r.1 = k
      · rw [if_pos hrk, if_pos hrk]
      · rw [if_neg hrk, if_neg hrk]
        exact ih

theorem version_after_setup (runningVersion freshId : String) (db : DbState) :
    lookupKV "version" ((setup_database runningVersion freshId db).1).rows
      = some runningVersion := by
  unfold setup_database
  simp only [getConfigurationValue]
  have hnv : ("node_id" : String) ≠ "version" := by decide
  have key : ∀ rows1 : List (String × String),
      lookupKV "version" rows1 = some runningVersion →
      lookupKV "version" (getOrSetNodeIdentifier rows1 freshId).1
        = some runningVersion := by
    intro rows1 h1
    unfold getOrSetNodeIdentifier
    cases hn : lookupKV "node_id" rows1 with
    | some n => simpa using h1
    | none =>
      simp only
      rw [show ("version" : String) = "version" from rfl] at h1
      rw [lookupKV_setConfigurationValue_other _ _ _ _
        (by decide : ("version" : String) ≠ "node_id")]
      exact h1
  cases hv : lookupKV "version" db.rows with
  | none =>
    simp only [hv]
    exact key _ (lookupKV_setConfigurationValue_self _ _ _ hv)
  | some v =>
    by_cases he : v = runningVersion
    · subst he
      simp only [hv, ne_eq, not_true_eq_false, ite_false]
      exact key _ hv
    · simp only [hv, ne_eq, he, not_false_eq_true, ite_true]
      exact key _ (lookupKV_updateConfigurationValue_self _ _ _ _ hv)

theorem nodeid_after_setup (runningVersion freshId : String) (db : DbState) :
    lookupKV "node_id" ((setup_database runningVersion freshId db).1).rows
      = some (setup_database runningVersion freshId db).2 := by
  unfold setup_database
  simp only
  generalize (match getConfigurationValue
      { db with hasPgq := true, hasPlpythonu := true, hasSchema := true,
                hasConfigTable := true : DbState }.rows "version" with
    | none => setConfigurationValue db.rows "version" runningVersion
    | some v =>
        if v ≠ runningVersion then
          updateConfigurationValue db.rows "version" runningVersion
        else db.rows) = rows1
  unfold getOrSetNodeIdentifier
  cases hn : lookupKV "node_id" rows1 with
  | some n => simpa using hn
  | none =>
    simp only
    exact lookupKV_setConfigurationValue_self _ _ _ hn

theorem setup_database_flags (runningVersion freshId : String) (db : DbState) :
    ((setup_database runningVersion freshId db).1).hasPgq = true
    ∧ ((setup_database runningVersion freshId db).1).hasPlpythonu = true
    ∧ ((setup_database runningVersion freshId db).1).hasSchema = true
    ∧ ((setup_database runningVersion freshId db).1).hasConfigTable = true
    ∧ ((setup_database runningVersion freshId db).1).logFn
        = some (renderLogTrigger runningVersion) := by
  unfold setup_database
  exact ⟨rfl, rfl, rfl, rfl, rfl⟩

/-- A database state that is already fully configured for the running version
is a fixed point of `setup_database`; the stored node id is returned. -/
theorem setup_database_fixed (runningVersion freshId n : String) (db : DbState)
    (hp : db.hasPgq = true) (hq : db.hasPlpythonu = true)
    (hs : db.hasSchema = true) (hc : db.hasConfigTable = true)
    (hv : lookupKV "version" db.rows = some runningVersion)
    (hn : lookupKV "node_id" db.rows = some n)
    (hlog : db.logFn = some (renderLogTrigger runningVersion)) :
    setup_database runningVersion freshId db = (db, n) := by
  obtain ⟨p, q, s, c, rows, logFn⟩ := db
  simp only at hp hq hs hc hv hn hlog
  subst hp; subst hq; subst hs; subst hc; subst hlog
  unfold setup_database getOrSetNodeIdentifier
  simp [getConfigurationValue, hv, hn]

/-- C4: `setup_database` is idempotent.  Running it a second time against a
node already configured by a first run changes nothing observable: the state
(including the row count of the configuration table) is unchanged, the
returned node id is the UUID of the first run, and the stored version remains
the running software version. -/
theorem setup_database_idempotent (runningVersion u1 u2 : String)
    (db : DbState) :
    setup_database runningVersion u2 (setup_database runningVersion u1 db).1
        = ((setup_database runningVersion u1 db).1,
           (setup_database runningVersion u1 db).2)
    ∧ ((setup_database runningVersion u2
          (setup_database runningVersion u1 db).1).1).rows.length
        = ((setup_database runningVersion u1 db).1).rows.length
    ∧ lookupKV "version" ((setup_database runningVersion u2
          (setup_database runningVersion u1 db).1).1).rows
        = some runningVersion := by
  obtain ⟨hp, hq, hs, hc, hl⟩ := setup_database_flags runningVersion u1 db
  have hfix := setup_database_fixed runningVersion u2
    ((setup_database runningVersion u1 db).2)
    ((setup_database runningVersion u1 db).1)
    hp hq hs hc
    (version_after_setup runningVersion u1 db)
    (nodeid_after_setup runningVersion u1 db)
    hl
  refine ⟨hfix, ?_, ?_⟩
  · rw [hfix]
  · rw [hfix]
    exact version_after_setup runningVersion u1 db

theorem lastEv_cons_ne {a : Event} {l : List Event} (h : l ≠ []) :
    lastEv (a :: l) = lastEv l := by
  match l with
  | [] => exact absurd rfl h
  | e :: es => rfl

theorem lastEv_append_right (l1 : List Event) {l2 : List Event}
    (h : l2 ≠ []) : lastEv (l1 ++ l2) = lastEv l2 := by
  induction l1 with
  | nil => rfl
  | cons a as ih =>
    rw [List.cons_append, lastEv_cons_ne, ih]
    intro hc
    rcases List.append_eq_nil.mp hc with ⟨_, h2⟩
    exact h h2

theorem lastEv_ne_nil {l : List Event} {e : Event}
    (h : lastEv l = some e) : l ≠ [] := by
  intro hc
  subst hc
  simp [lastEv] at h

theorem lastEv_mem {l : List Event} {e : Event}
    (h : lastEv l = some e) : e ∈ l := by
  induction l with
  | nil => simp [lastEv] at h
  | cons a as ih =>
    match as with
    | [] =>
      simp [lastEv] at h
      simp [h]
    | b :: bs =>
      rw [lastEv_cons_ne (by simp)] at h
      exact List.mem_cons_of_mem _ (ih h)

theorem adminP_of_tailP {tr : List Event} {okb : Bool} (h : TailP tr okb) :
    AdminP tr okb :=
  ⟨fun hok => ⟨fun _ => (h.1 hok).1, (h.1 hok).2⟩, h.2.1, h.2.2⟩

theorem tailP_of_adminP_false {tr : List Event} (h : AdminP tr false) :
    TailP tr false :=
  ⟨fun hok => absurd hok (by simp), h.2.1, h.2.2⟩

theorem tailP_nil_false : TailP [] false := by
  refine ⟨fun h => absurd h (by simp), ?_, ?_⟩
  · intro h; simp at h
  · intro t h; simp at h

theorem all_clean_no_fail {l : List Event} (h : l.all cleanEvent = true) :
    Event.storeCommitFailed ∉ l ∧ Event.storeAbort ∉ l
    ∧ ∀ t, Event.pgCommitFailed t ∉ l := by
  rw [List.all_eq_true] at h
  refine ⟨fun hm => ?_, fun hm => ?_, fun t hm => ?_⟩
  · have := h _ hm; simp [cleanEvent] at this
  · have := h _ hm; simp [cleanEvent] at this
  · have := h _ hm; simp [cleanEvent] at this

theorem benign_clean {l : List Event} (h : l.all benignEvent = true) :
    l.all cleanEvent = true := by
  rw [List.all_eq_true] at h ⊢
  intro e he
  have hb := h e he
  cases e <;> simp [benignEvent] at hb <;> rfl

theorem benign_no_store {l : List Event} (h : l.all benignEvent = true) :
    Event.storeCommit ∉ l := by
  rw [List.all_eq_true] at h
  intro hm
  have := h _ hm
  simp [benignEvent] at this

/-- A trace of only benign (loop) events satisfies the C1 clauses for any
outcome: it contains no commit-phase events at all. -/
theorem adminP_benign {l : List Event} (okb : Bool)
    (h : l.all benignEvent = true) : AdminP l okb := by
  obtain ⟨h1, h2, h3⟩ := all_clean_no_fail (benign_clean h)
  refine ⟨fun _ => ⟨fun hm => absurd hm (benign_no_store h), benign_clean h⟩,
    fun hm => absurd hm h1, fun t hm => absurd hm (h3 t)⟩

/-- A clean prefix (of earlier successful phases and loop events) preserves
the C1 tail property. -/
theorem tailP_prepend {pre tr : List Event} {okb : Bool}
    (hc : pre.all cleanEvent = true) (h : TailP tr okb) :
    TailP (pre ++ tr) okb := by
  obtain ⟨hA, hB, hC⟩ := h
  obtain ⟨hnoSCF, hnoSA, hnoPGF⟩ := all_clean_no_fail hc
  refine ⟨?_, ?_, ?_⟩
  · intro hok
    obtain ⟨hlast, hclean⟩ := hA hok
    exact ⟨by rw [lastEv_append_right _ (lastEv_ne_nil hlast)]; exact hlast,
      by simp [List.all_append, hc, hclean]⟩
  · intro hm
    rcases List.mem_append.mp hm with hm1 | hm2
    · exact absurd hm1 hnoSCF
    · obtain ⟨hlast, hok, hnone⟩ := hB hm2
      refine ⟨by rw [lastEv_append_right _ (lastEv_ne_nil hlast)]; exact hlast,
        hok, fun t hmem => ?_⟩
      rcases List.mem_append.mp hmem with hq | hq
      · exact hnoPGF t hq
      · exact hnone t hq
  · intro t hm
    rcases List.mem_append.mp hm with hm1 | hm2
    · exact absurd hm1 (hnoPGF t)
    · obtain ⟨hlast, hok⟩ := hC t hm2
      exact ⟨by rw [lastEv_append_right _ (lastEv_ne_nil hlast)]; exact hlast,
        hok⟩

theorem managedRun_ne_nil (pgOk : String → Bool) (storeOk : Bool)
    (txns : List String) : (managedRun pgOk storeOk txns).1 ≠ [] := by
  match txns with
  | [] =>
    by_cases h : storeOk <;> simp [managedRun, h]
  | t :: ts =>
    by_cases h : pgOk t <;> simp [managedRun, h]

/-- The commit phase satisfies the C1 tail property: on success the trace is
the Postgres commits followed by the final store commit; a store-commit
failure happens only after every Postgres commit succeeded and is last; a
Postgres commit failure aborts the remainder and the store transaction. -/
theorem managedRun_tailP (pgOk : String → Bool) (storeOk : Bool)
    (txns : List String) :
    TailP (managedRun pgOk storeOk txns).1
      (managedRun pgOk storeOk txns).2.isNone := by
  induction txns with
  | nil =>
    by_cases h : storeOk
    · simp only [managedRun, h, if_true]
      refine ⟨fun _ => ⟨rfl, by decide⟩, ?_, ?_⟩
      · intro hm; simp at hm
      · intro t hm; simp at hm
    · simp only [managedRun, h, if_false]
      refine ⟨fun hok => by simp at hok, ?_, ?_⟩
      · intro hm
        refine ⟨rfl, by simp, fun t hmem => ?_⟩
        simp at hmem
      · intro t hm; simp at hm
  | cons t ts ih =>
    by_cases h : pgOk t
    · simp only [managedRun, h, if_true]
      obtain ⟨ihA, ihB, ihC⟩ := ih
      have hne := managedRun_ne_nil pgOk storeOk ts
      refine ⟨?_, ?_, ?_⟩
      · intro hok
        obtain ⟨hlast, hclean⟩ := ihA hok
        exact ⟨by rw [lastEv_cons_ne hne]; exact hlast,
          by simp [List.all_cons, hclean]; rfl⟩
      · intro hm
        have hm2 : Event.storeCommitFailed ∈ (managedRun pgOk storeOk ts).1 := by
          rcases List.mem_cons.mp hm with hq | hq
          · exact absurd hq (by simp)
          · exact hq
        obtain ⟨hlast, hok, hnone⟩ := ihB hm2
        refine ⟨by rw [lastEv_cons_ne hne]; exact hlast, hok, fun u hmem => ?_⟩
        rcases List.mem_cons.mp hmem with hq | hq
        · exact absurd hq (by simp)
        · exact hnone u hq
      · intro u hm
        have hm2 : Event.pgCommitFailed u ∈ (managedRun pgOk storeOk ts).1 := by
          rcases List.mem_cons.mp hm with hq | hq
          · exact absurd hq (by simp)
          · exact hq
        obtain ⟨hlast, hok⟩ := ihC u hm2
        exact ⟨by rw [lastEv_cons_ne hne]; exact hlast, hok⟩
    · have hrw : managedRun pgOk storeOk (t :: ts)
          = (Event.pgCommitFailed t
              :: (ts.map Event.pgAbort ++ [Event.storeAbort]),
             some (AdminError.commitFailed t)) := by
        simp only [managedRun, if_neg h]
      rw [hrw]
      refine ⟨fun hok => by simp at hok, ?_, ?_⟩
      · intro hm
        exfalso
        rcases List.mem_cons.mp hm with hq | hq
        · exact absurd hq (by simp)
        · rcases List.mem_append.mp hq with hr | hr
          · rcases List.mem_map.mp hr with ⟨_, _, habs⟩
            exact absurd habs (by simp)
          · simp at hr
      · intro u hm
        refine ⟨?_, by simp⟩
        rw [lastEv_cons_ne (by simp)]
        rw [lastEv_append_right _ (by simp)]
        rfl

theorem tailP_clean_false {tr : List Event} (h : tr.all cleanEvent = true) :
    TailP tr false := by
  obtain ⟨h1, _, h3⟩ := all_clean_no_fail h
  exact ⟨fun hok => absurd hok (by simp), fun hm => absurd hm h1,
    fun t hm => absurd hm (h3 t)⟩

theorem exceptOk_map {α β : Type} (f : α → β) (r : Except AdminError α) :
    exceptOk (r.map f) = exceptOk r := by
  cases r <;> rfl

theorem gmdStep_events_benign (env : Env) (c s : Bool) (st : GmdSt)
    (d : String) : ((gmdStep env c s st d).2.1).all benignEvent = true := by
  unfold gmdStep
  cases hres : env.resolve d with
  | none => by_cases hs : s <;> simp [hs]
  | some inst =>
    by_cases hct : (env.db inst).hasConfigTable
    · simp only [hct, if_true]
      cases hni : lookupKV "node_id" (env.db inst).rows with
      | none => rfl
      | some nodeId =>
        by_cases hv : (lookupKV "version" (env.db inst).rows).getD "None"
            ≠ env.runningVersion
        · simp only [if_pos hv]; rfl
        · simp only [if_neg hv]
          cases hdup : lookupKV nodeId st.nodes <;> rfl
    · simp only [Bool.not_eq_true] at hct
      simp only [hct]
      by_cases hc : c = false
      · simp only [if_pos hc]; rfl
      · simp only [if_neg hc]
        by_cases hl : st.locked.contains inst
        · simp only [hl, if_true]; rfl
        · simp only [hl]
          cases hdup : lookupKV
              (setup_database env.runningVersion (env.fresh d)
                (env.db inst)).2 st.nodes <;> simp [benignEvent]

theorem gmdLoop_events_benign (env : Env) (c s : Bool) :
    ∀ (ds : List String) (st : GmdSt),
      (((gmdLoop env c s ds st).2.1).all benignEvent = true) := by
  intro ds
  induction ds with
  | nil => intro st; rfl
  | cons d ds ih =>
    intro st
    simp only [gmdLoop]
    cases hstep : (gmdStep env c s st d).2.2 with
    | some e =>
      simp only [hstep]
      exact gmdStep_events_benign env c s st d
    | none =>
      simp only [hstep, List.all_append]
      rw [Bool.and_eq_true]
      exact ⟨gmdStep_events_benign env c s st d, ih _⟩

/-- The trace and outcome of `get_managed_databases` satisfy the C1 commit
clauses: when the acquirer reaches its commit phase, the setup transactions
commit before the coordination-store transaction, which is last. -/
theorem gmd_adminP (env : Env) (dsns : List String) (c s v : Bool) :
    AdminP (get_managed_databases env dsns c s v).2
      (exceptOk (get_managed_databases env dsns c s v).1) := by
  unfold get_managed_databases
  by_cases hd : dsns.isEmpty
  · simp only [hd, if_true]
    exact ⟨fun _ => ⟨fun hm => absurd hm (by simp), rfl⟩,
      fun hm => absurd hm (by simp), fun t hm => absurd hm (by simp)⟩
  · simp only [hd, if_false]
    have hben : (Event.storeTxStart v
        :: (gmdLoop env c s dsns ⟨[], [], []⟩).2.1).all benignEvent = true := by
      rw [List.all_cons, Bool.and_eq_true]
      exact ⟨rfl, gmdLoop_events_benign env c s dsns _⟩
    cases hloop : (gmdLoop env c s dsns ⟨[], [], []⟩).2.2 with
    | some e =>
      simp only [hloop]
      exact adminP_benign _ hben
    | none =>
      simp only [hloop]
      by_cases ht : (gmdLoop env c s dsns ⟨[], [], []⟩).1.txns.isEmpty
      · simp only [ht, if_true]
        exact adminP_benign _ hben
      · simp only [ht, if_false]
        have hmr := managedRun_tailP env.pgOk
          (env.storeHealthy &&
            (!v || env.storeClusterVersion == env.runningVersion))
          (gmdLoop env c s dsns ⟨[], [], []⟩).1.txns
        have hcomp := tailP_prepend (benign_clean hben) hmr
        cases hm2 : (managedRun env.pgOk
            (env.storeHealthy &&
              (!v || env.storeClusterVersion == env.runningVersion))
            (gmdLoop env c s dsns ⟨[], [], []⟩).1.txns).2 with
        | none =>
          rw [hm2] at hcomp
          simp only [hm2]
          exact adminP_of_tailP hcomp
        | some e =>
          rw [hm2] at hcomp
          simp only [hm2]
          exact adminP_of_tailP hcomp

/-- The trace of a successful `get_managed_databases` call is clean. -/
theorem gmd_clean_of_ok (env : Env) (dsns : List String) (c s v : Bool)
    (nodes : List (String × String))
    (h : (get_managed_databases env dsns c s v).1 = .ok nodes) :
    ((get_managed_databases env dsns c s v).2).all cleanEvent = true := by
  have ha := gmd_adminP env dsns c s v
  rw [h] at ha
  exact (ha.1 rfl).2

theorem tailP_finish (pre : List Event) (hpre : pre.all cleanEvent = true)
    (pgOk : String → Bool) (storeOk : Bool) (txns : List String) :
    TailP (pre ++ (managedRun pgOk storeOk txns).1)
      (exceptOk ((match (managedRun pgOk storeOk txns).2 with
        | none => Except.ok ()
        | some e => Except.error e) : Except AdminError Unit)) := by
  have h := tailP_prepend hpre (managedRun_tailP pgOk storeOk txns)
  cases hm : (managedRun pgOk storeOk txns).2 with
  | none =>
    rw [hm] at h
    simpa only [hm] using h
  | some e =>
    rw [hm] at h
    simpa only [hm] using h

theorem create_set_tailP (env : Env) (name : String) (cfg : SetCfg) :
    TailP (create_set env name cfg).2 (exceptOk (create_set env name cfg).1) := by
  unfold create_set
  cases hv : validate_set_configuration cfg with
  | some e => exact tailP_nil_false
  | none =>
    cases hr : (get_managed_databases env (cfg.databases.map (·.dsn))
        true false true).1 with
    | error e =>
      simp only [hr]
      have h := gmd_adminP env (cfg.databases.map (·.dsn)) true false true
      rw [hr] at h
      exact tailP_of_adminP_false h
    | ok nodes =>
      simp only [hr]
      have hclean := gmd_clean_of_ok env (cfg.databases.map (·.dsn))
        true false true nodes hr
      have hpre : ((get_managed_databases env (cfg.databases.map (·.dsn))
          true false true).2 ++ [Event.storeTxStart true]).all cleanEvent
          = true := by
        rw [List.all_append, Bool.and_eq_true]
        exact ⟨hclean, rfl⟩
      have h := tailP_finish _ hpre env.pgOk
        (env.storeHealthy && env.storeClusterVersion == env.runningVersion
          && !(env.storeSets.any (fun x => x.1 == name)))
        (nodes.map (fun nd => "create-set:" ++ name ++ ":" ++ nd.2))
      exact h

theorem drop_set_tailP (env : Env) (name : String) (force : Bool) :
    TailP (drop_set env name force).2 (exceptOk (drop_set env name force).1) := by
  unfold drop_set
  cases hs : lookupKVSet env.storeSets name with
  | none => exact tailP_nil_false
  | some cfg =>
    cases hr : (get_managed_databases env (cfg.databases.map (·.dsn))
        false force true).1 with
    | error e =>
      simp only [hr]
      have h := gmd_adminP env (cfg.databases.map (·.dsn)) false force true
      rw [hr] at h
      exact tailP_of_adminP_false h
    | ok deletions =>
      simp only [hr]
      have hclean := gmd_clean_of_ok env (cfg.databases.map (·.dsn))
        false force true deletions hr
      have hpre : ((get_managed_databases env (cfg.databases.map (·.dsn))
          false force true).2 ++ [Event.storeTxStart true]).all cleanEvent
          = true := by
        rw [List.all_append, Bool.and_eq_true]
        exact ⟨hclean, rfl⟩
      have h := tailP_finish _ hpre env.pgOk
        (env.storeHealthy && env.storeClusterVersion == env.runningVersion)
        (deletions.map (fun nd => "drop-set:" ++ name ++ ":" ++ nd.2))
      exact h

theorem upgrade_cluster_tailP (env : Env) (force : Bool) :
    TailP (upgrade_cluster env force).2
      (exceptOk (upgrade_cluster env force).1) := by
  unfold upgrade_cluster
  by_cases hguard :
      ¬(versionLt env.storeClusterVersion env.runningVersion || force) = true
  · simp only [if_pos hguard]
    exact tailP_nil_false
  · simp only [if_neg hguard]
    cases hr : (get_managed_databases env
        (unique (env.storeSets.flatMap (fun x => x.2.databases.map (·.dsn))))
        false false false).1 with
    | error e =>
      simp only [hr]
      have h := gmd_adminP env
        (unique (env.storeSets.flatMap (fun x => x.2.databases.map (·.dsn))))
        false false false
      rw [hr] at h
      exact tailP_prepend
        (show ([Event.storeTxStart false]).all cleanEvent = true from rfl)
        (tailP_of_adminP_false h)
    | ok nodes =>
      simp only [hr]
      have hclean := gmd_clean_of_ok env
        (unique (env.storeSets.flatMap (fun x => x.2.databases.map (·.dsn))))
        false false false nodes hr
      have hpre : (Event.storeTxStart false
          :: (get_managed_databases env
            (unique (env.storeSets.flatMap (fun x => x.2.databases.map (·.dsn))))
            false false false).2).all cleanEvent = true := by
        rw [List.all_cons, Bool.and_eq_true]
        exact ⟨rfl, hclean⟩
      have h := tailP_finish _ hpre env.pgOk env.storeHealthy
        (nodes.map (fun nd => "update-cluster:" ++ nd.2))
      simpa using h

theorem update_set_tailP (env : Env) (name : String) (cfg : SetCfg)
    (force : Bool) :
    TailP (update_set env name cfg force).2
      (exceptOk (update_set env name cfg force).1) := by
  unfold update_set
  cases hv : validate_set_configuration cfg with
  | some e => exact tailP_nil_false
  | none =>
    cases hs : lookupKVSet env.storeSets name with
    | none => exact tailP_nil_false
    | some current =>
      cases hra : (get_managed_databases env
          (listDiff (unique (cfg.databases.map (·.dsn)))
            (unique (current.databases.map (·.dsn)))) true false true).1 with
      | error e =>
        simp only [hra]
        have h := gmd_adminP env
          (listDiff (unique (cfg.databases.map (·.dsn)))
            (unique (current.databases.map (·.dsn)))) true false true
        rw [hra] at h
        exact tailP_of_adminP_false h
      | ok additions =>
        simp only [hra]
        have hca := gmd_clean_of_ok env
          (listDiff (unique (cfg.databases.map (·.dsn)))
            (unique (current.databases.map (·.dsn)))) true false true
          additions hra
        cases hrm : (get_managed_databases env
            (listInter (unique (cfg.databases.map (·.dsn)))
              (unique (current.databases.map (·.dsn)))) true false true).1 with
        | error e =>
          simp only [hrm]
          have h := gmd_adminP env
            (listInter (unique (cfg.databases.map (·.dsn)))
              (unique (current.databases.map (·.dsn)))) true false true
          rw [hrm] at h
          exact tailP_prepend hca (tailP_of_adminP_false h)
        | ok mutations =>
          simp only [hrm]
          have hcm := gmd_clean_of_ok env
            (listInter (unique (cfg.databases.map (·.dsn)))
              (unique (current.databases.map (·.dsn)))) true false true
            mutations hrm
          cases hrd : (get_managed_databases env
              (listDiff (unique (current.databases.map (·.dsn)))
                (unique (cfg.databases.map (·.dsn)))) true force true).1 with
          | error e =>
            simp only [hrd]
            have h := gmd_adminP env
              (listDiff (unique (current.databases.map (·.dsn)))
                (unique (cfg.databases.map (·.dsn)))) true force true
            rw [hrd] at h
            rw [List.append_assoc]
            exact tailP_prepend hca
              (tailP_prepend hcm (tailP_of_adminP_false h))
          | ok deletions =>
            simp only [hrd]
            have hcd := gmd_clean_of_ok env
              (listDiff (unique (current.databases.map (·.dsn)))
                (unique (cfg.databases.map (·.dsn)))) true force true
              deletions hrd
            by_cases hdup : unique (additions.map (·.1) ++ mutations.map (·.1)
                ++ deletions.map (·.1)) ≠ additions.map (·.1)
                ++ mutations.map (·.1) ++ deletions.map (·.1)
            · simp only [if_pos hdup]
              apply tailP_clean_false
              rw [List.all_append, List.all_append, Bool.and_eq_true,
                Bool.and_eq_true]
              exact ⟨⟨hca, hcm⟩, hcd⟩
            · simp only [if_neg hdup]
              have hpre : ((get_managed_databases env
                  (listDiff (unique (cfg.databases.map (·.dsn)))
                    (unique (current.databases.map (·.dsn))))
                  true false true).2
                ++ (get_managed_databases env
                  (listInter (unique (cfg.databases.map (·.dsn)))
                    (unique (current.databases.map (·.dsn))))
                  true false true).2
                ++ (get_managed_databases env
                  (listDiff (unique (current.databases.map (·.dsn)))
                    (unique (cfg.databases.map (·.dsn))))
                  true force true).2
                ++ [Event.storeTxStart true]).all cleanEvent = true := by
                rw [List.all_append, List.all_append, List.all_append,
                  Bool.and_eq_true, Bool.and_eq_true, Bool.and_eq_true]
                exact ⟨⟨⟨hca, hcm⟩, hcd⟩, rfl⟩
              have h := tailP_finish _ hpre env.pgOk
                (env.storeHealthy
                  && env.storeClusterVersion == env.runningVersion)
                (additions.map
                    (fun nd => "update-set:create:" ++ name ++ ":" ++ nd.2)
                  ++ mutations.map
                    (fun nd => "update-set:update:" ++ name ++ ":" ++ nd.2)
                  ++ deletions.map
                    (fun nd => "update-set:delete:" ++ name ++ ":" ++ nd.2))
              exact h

/-- C1: for every mutating administration operation (`create_set`,
`update_set`, `drop_set`, `upgrade_cluster`, and the acquirer's setup path
inside `get_managed_databases`), the open Postgres transactions are committed
before the coordination-store transaction and the coordination-store commit
is the last event of the success trace; a coordination-store commit failure
can only occur as the final event, after every Postgres commit of its phase
succeeded (the sole partial-failure window), and a failed Postgres commit
forces the store transaction to abort uncommitted. -/
theorem admin_commit_ordering (op : AdminOp) (env : Env) :
    AdminP (runAdmin op env).2 (exceptOk (runAdmin op env).1)
    ∧ (exceptOk (runAdmin op env).1 = true → opCommitsStore op = true →
        lastEv (runAdmin op env).2 = some Event.storeCommit
        ∧ Event.storeCommit ∈ (runAdmin op env).2) := by
  cases op with
  | opCreate name cfg =>
    have h := create_set_tailP env name cfg
    exact ⟨adminP_of_tailP h,
      fun hok _ => ⟨(h.1 hok).1, lastEv_mem (h.1 hok).1⟩⟩
  | opUpdate name cfg force =>
    have h := update_set_tailP env name cfg force
    exact ⟨adminP_of_tailP h,
      fun hok _ => ⟨(h.1 hok).1, lastEv_mem (h.1 hok).1⟩⟩
  | opDrop name force =>
    have h := drop_set_tailP env name force
    exact ⟨adminP_of_tailP h,
      fun hok _ => ⟨(h.1 hok).1, lastEv_mem (h.1 hok).1⟩⟩
  | opUpgrade force =>
    have h := upgrade_cluster_tailP env force
    exact ⟨adminP_of_tailP h,
      fun hok _ => ⟨(h.1 hok).1, lastEv_mem (h.1 hok).1⟩⟩
  | opAcquire dsns c s v =>
    constructor
    · have h := gmd_adminP env dsns c s v
      simp only [runAdmin]
      rw [exceptOk_map]
      exact h
    · intro _ habs
      simp [opCommitsStore] at habs

theorem admin_commit_ordering_witness :
    lastEv (runAdmin (AdminOp.opCreate "orders"
        ⟨[⟨"d1"⟩], []⟩) envW).2 = some Event.storeCommit
    ∧ Event.storeCommit ∈ (runAdmin (AdminOp.opCreate "orders"
        ⟨[⟨"d1"⟩], []⟩) envW).2 :=
  (admin_commit_ordering (AdminOp.opCreate "orders" ⟨[⟨"d1"⟩], []⟩) envW).2
    (by rfl) (by rfl)

/-- C10: calling `get_managed_databases` with an empty collection of DSNs
returns an empty mapping immediately: no coordination-store transaction is
started (hence no cluster version check happens, whatever the
`same_version` flag), and no Postgres connection is opened. -/
theorem gmd_empty_dsns (env : Env) (c s v : Bool) :
    get_managed_databases env [] c s v = (.ok [], [])
    ∧ (∀ b, Event.storeTxStart b ∉ (get_managed_databases env [] c s v).2)
    ∧ (∀ d, Event.connect d ∉ (get_managed_databases env [] c s v).2) := by
  have h : get_managed_databases env [] c s v = (.ok [], []) := rfl
  exact ⟨h, fun b => by rw [h]; simp, fun d => by rw [h]; simp⟩

/-- C2: the per-node version check of `get_managed_databases` is NOT skipped
when `same_version` is false.  The assertion at administration.py line 216
runs unconditionally, so a node with an older stored version is rejected
with a version mismatch even on the `upgrade_cluster` path
(`same_version=False`), for either value of the flag. -/
theorem gmd_version_check_not_skipped (sameVersion : Bool) :
    (get_managed_databases envC2 ["d-old"] true false sameVersion).1
      = .error (.versionMismatch "0.2" "0.1") := by
  cases sameVersion <;> rfl

/-- C8 counterexample: `create_set` with `databases=[d1, d1]` fails in
`validate_set_configuration` with the duplicate-databases assertion (which
names the one duplicated DSN), not with the acquirer's `DuplicateNode`
error (which names two connections); nothing has been done at that point
(empty trace: no store write, no commit). -/
theorem create_set_duplicate_dsn_counterexample :
    (create_set envW "orders" cfgDup).1
        = .error (.duplicateDatabase "d1")
    ∧ (create_set envW "orders" cfgDup).1
        ≠ .error (.duplicateNode "d1" "d1")
    ∧ (create_set envW "orders" cfgDup).2 = ([] : List Event) := by
  refine ⟨rfl, ?_, rfl⟩
  intro h
  have h1 : (create_set envW "orders" cfgDup).1
      = Except.error (AdminError.duplicateDatabase "d1") := rfl
  rw [h1] at h
  simp at h

/-- C8 amended: `create_set` with `databases=[d, d]` raises the
duplicate-databases validation error naming the DSN, before any store or
Postgres work: the trace is empty, so nothing is written to the
coordination store and no schema change is committed. -/
theorem create_set_duplicate_dsn (env : Env) (name d : String)
    (tables : List TableCfg) :
    create_set env name ⟨[⟨d⟩, ⟨d⟩], tables⟩
      = (.error (.duplicateDatabase d), []) := by
  simp [create_set, validate_set_configuration, validateDatabases]

/-! ## Duplicate-node detection (claim C3) -/
theorem lookupKV_ne_none_of_mem {k v : String} {l : List (String × String)}
    (h : (k, v) ∈ l) : lookupKV k l ≠ none := by
  induction l with
  | nil => simp at h
  | cons r rs ih =>
    by_cases hk : r.1 = k
    · simp [lookupKV, hk]
    · simp only [lookupKV, if_neg hk]
      rcases List.mem_cons.mp h with he | hm
      · exact absurd (congrArg Prod.fst he.symm) hk
      · exact ih hm

theorem unique_append_singleton_aux {α : Type} [DecidableEq α] (x : α)
    (n : Nat) :
    ∀ l : List α, l.length ≤ n →
      (unique (l ++ [x])).length
        = if x ∈ l then (unique l).length else (unique l).length + 1 := by
  induction n with
  | zero =>
    intro l hl
    match l with
    | [] =>
      simp only [List.nil_append, List.not_mem_nil, if_false, unique_nil]
      rw [unique_cons]
      simp [unique_nil]
  | succ n ih =>
    intro l hl
    match l with
    | [] =>
      simp only [List.nil_append, List.not_mem_nil, if_false, unique_nil]
      rw [unique_cons]
      simp [unique_nil]
    | a :: l1 =>
      have hle : (l1.filter (fun y => y ≠ a)).length ≤ n :=
        le_trans (List.length_filter_le _ _)
          (Nat.le_of_succ_le_succ (by simpa using hl))
      rw [List.cons_append, unique_cons, List.filter_append]
      by_cases hax : x = a
      · subst hax
        have hfx : ([x].filter (fun y => y ≠ x)) = [] := by simp
        rw [hfx, List.append_nil]
        simp only [List.mem_cons, true_or, if_true]
        rw [unique_cons]
      · have hfx : ([x].filter (fun y => y ≠ a)) = [x] := by simp [hax]
        rw [hfx]
        simp only [List.length_cons]
        rw [ih _ hle]
        have hmem : x ∈ l1.filter (fun y => y ≠ a) ↔ x ∈ l1 := by
          rw [List.mem_filter]
          simp [hax]
        rw [unique_cons]
        simp only [List.length_cons]
        by_cases hx1 : x ∈ l1
        · rw [if_pos (hmem.mpr hx1), if_pos (by simp [hx1])]
        · rw [if_neg (fun hc => hx1 (hmem.mp hc)),
            if_neg (by simp [hx1, hax])]

theorem unique_append_singleton {α : Type} [DecidableEq α] (l : List α)
    (x : α) :
    (unique (l ++ [x])).length
      = if x ∈ l then (unique l).length else (unique l).length + 1 :=
  unique_append_singleton_aux x l.length l le_rfl

theorem gmdInv_nil (env : Env) : GmdInv env [] ⟨[], [], []⟩ := by
  refine ⟨rfl, ?_, ?_⟩
  · intro d hd; simp at hd
  · intro d hd; simp at hd

theorem filterMap_append_singleton (env : Env) (P : List String) (d : String)
    (inst : Nat) (hr : env.resolve d = some inst) :
    (P ++ [d]).filterMap env.resolve = P.filterMap env.resolve ++ [inst] := by
  rw [List.filterMap_append]
  simp [List.filterMap, hr]

theorem gmdInv_append_configured (env : Env) (P : List String) (st : GmdSt)
    (d : String) (inst : Nat) (n : String)
    (hr : env.resolve d = some inst)
    (hct : (env.db inst).hasConfigTable = true)
    (hn : lookupKV "node_id" (env.db inst).rows = some n)
    (hdup : lookupKV n st.nodes = none)
    (hinv : GmdInv env P st) :
    GmdInv env (P ++ [d]) { st with nodes := st.nodes ++ [(n, d)] } := by
  obtain ⟨hlen, hlock, hids⟩ := hinv
  have hfresh : inst ∉ P.filterMap env.resolve := by
    intro hmem
    obtain ⟨d1, hd1, hr1⟩ := List.mem_filterMap.mp hmem
    have hid1 : gmdNodeId env d1 = some n := by
      simp only [gmdNodeId, hr1]
      rw [if_pos hct, hn]
    obtain ⟨q, hq⟩ := hids d1 hd1 n hid1
    exact lookupKV_ne_none_of_mem hq hdup
  refine ⟨?_, ?_, ?_⟩
  · simp only [List.length_append, List.length_cons, List.length_nil]
    rw [filterMap_append_singleton env P d inst hr,
      unique_append_singleton, if_neg hfresh, hlen]
  · intro d1 hd1 inst1 hr1 hct1
    rcases List.mem_append.mp hd1 with hp | hq
    · exact hlock d1 hp inst1 hr1 hct1
    · have : d1 = d := by simpa using hq
      subst this
      rw [hr] at hr1
      cases hr1
      rw [hct] at hct1
      cases hct1
  · intro d1 hd1 n1 hid1
    rcases List.mem_append.mp hd1 with hp | hq
    · obtain ⟨q, hmem⟩ := hids d1 hp n1 hid1
      exact ⟨q, List.mem_append_left _ hmem⟩
    · have : d1 = d := by simpa using hq
      subst this
      simp only [gmdNodeId, hr] at hid1
      rw [if_pos hct, hn] at hid1
      cases hid1
      exact ⟨d1, List.mem_append_right _ (by simp)⟩

theorem gmdInv_append_setup (env : Env) (P : List String) (st : GmdSt)
    (d : String) (inst : Nat)
    (hr : env.resolve d = some inst)
    (hct : (env.db inst).hasConfigTable = false)
    (hlockf : st.locked.contains inst = false)
    (hdup : lookupKV (setup_database env.runningVersion (env.fresh d)
        (env.db inst)).2 st.nodes = none)
    (hinv : GmdInv env P st) :
    GmdInv env (P ++ [d])
      { st with
        nodes := st.nodes ++ [((setup_database env.runningVersion
          (env.fresh d) (env.db inst)).2, d)],
        locked := inst :: st.locked,
        txns := st.txns ++ ["setup-database:" ++ d] } := by
  obtain ⟨hlen, hlock, hids⟩ := hinv
  have hfresh : inst ∉ P.filterMap env.resolve := by
    intro hmem
    obtain ⟨d1, hd1, hr1⟩ := List.mem_filterMap.mp hmem
    have := hlock d1 hd1 inst hr1 hct
    rw [hlockf] at this
    cases this
  refine ⟨?_, ?_, ?_⟩
  · simp only [List.length_append, List.length_cons, List.length_nil]
    rw [filterMap_append_singleton env P d inst hr,
      unique_append_singleton, if_neg hfresh, hlen]
  · intro d1 hd1 inst1 hr1 hct1
    rcases List.mem_append.mp hd1 with hp | hq
    · have := hlock d1 hp inst1 hr1 hct1
      simp only [List.contains_cons]
      rw [this]
      simp
    · have : d1 = d := by simpa using hq
      subst this
      rw [hr] at hr1
      cases hr1
      simp [List.contains_cons]
  · intro d1 hd1 n1 hid1
    rcases List.mem_append.mp hd1 with hp | hq
    · obtain ⟨q, hmem⟩ := hids d1 hp n1 hid1
      exact ⟨q, List.mem_append_left _ hmem⟩
    · have : d1 = d := by simpa using hq
      subst this
      simp only [gmdNodeId, hr] at hid1
      rw [if_neg (by simp [hct])] at hid1
      cases hid1
      exact ⟨d1, List.mem_append_right _ (by simp)⟩

theorem gmdLoop_spec (env : Env) (c s : Bool) :
    ∀ (ds P : List String) (st : GmdSt),
      (∀ d ∈ ds, (env.resolve d).isSome = true) →
      (∀ d ∈ ds, ∀ inst, env.resolve d = some inst →
        NodeAcceptable env c inst) →
      GmdInv env P st →
      ((gmdLoop env c s ds st).2.2 = none →
        GmdInv env (P ++ ds) (gmdLoop env c s ds st).1)
      ∧ (∀ e, (gmdLoop env c s ds st).2.2 = some e →
          (∃ a b, e = .duplicateNode a b) ∨ ∃ d, e = .possibleDeadlock d) := by
  intro ds
  induction ds with
  | nil =>
    intro P st _ _ hinv
    constructor
    · intro _
      simpa using hinv
    · intro e he
      simp [gmdLoop] at he
  | cons d ds ih =>
    intro P st hres hacc hinv
    have hd : (env.resolve d).isSome = true := hres d (by simp)
    cases hr : env.resolve d with
    | none => rw [hr] at hd; cases hd
    | some inst =>
      have haccd := hacc d (by simp) inst hr
      by_cases hct : (env.db inst).hasConfigTable = true
      · rw [NodeAcceptable, if_pos hct] at haccd
        obtain ⟨hnid, hver⟩ := haccd
        obtain ⟨n, hn⟩ := Option.isSome_iff_exists.mp hnid
        have hvne : ¬((lookupKV "version" (env.db inst).rows).getD "None"
            ≠ env.runningVersion) := fun hne => hne hver
        cases hdup : lookupKV n st.nodes with
        | some prev =>
          have hstep : gmdStep env c s st d
              = (st, [.connect d, .probeCommit d],
                 some (.duplicateNode prev d)) := by
            simp only [gmdStep, hr, hct, if_true, hn, if_neg hvne, hdup]
          constructor
          · intro he
            rw [gmdLoop] at he
            simp only [hstep] at he
            cases he
          · intro e he
            rw [gmdLoop] at he
            simp only [hstep] at he
            cases he
            exact Or.inl ⟨prev, d, rfl⟩
        | none =>
          have hstep : gmdStep env c s st d
              = ({ st with nodes := st.nodes ++ [(n, d)] },
                 [.connect d, .probeCommit d], none) := by
            simp only [gmdStep, hr, hct, if_true, hn, if_neg hvne, hdup]
          have hinv2 := gmdInv_append_configured env P st d inst n hr hct hn
            hdup hinv
          have hrec := ih (P ++ [d]) { st with nodes := st.nodes ++ [(n, d)] }
            (fun d1 hd1 => hres d1 (List.mem_cons_of_mem _ hd1))
            (fun d1 hd1 => hacc d1 (List.mem_cons_of_mem _ hd1))
            hinv2
          constructor
          · intro he
            rw [gmdLoop] at he ⊢
            simp only [hstep] at he ⊢
            have := hrec.1 he
            rwa [List.append_assoc, List.singleton_append] at this
          · intro e he
            rw [gmdLoop] at he
            simp only [hstep] at he
            exact hrec.2 e he
      · have hctf : (env.db inst).hasConfigTable = false := by
          simpa using hct
        rw [NodeAcceptable, if_neg hct] at haccd
        cases hlk : st.locked.contains inst with
        | true =>
          have hstep : gmdStep env c s st d
              = (st, [.connect d], some (.possibleDeadlock d)) := by
            simp only [gmdStep, hr]
            rw [if_neg hct, if_neg (show ¬(c = false) by
              simp [haccd]), if_pos hlk]
          constructor
          · intro he
            rw [gmdLoop] at he
            simp only [hstep] at he
            cases he
          · intro e he
            rw [gmdLoop] at he
            simp only [hstep] at he
            cases he
            exact Or.inr ⟨d, rfl⟩
        | false =>
          cases hdup : lookupKV (setup_database env.runningVersion
              (env.fresh d) (env.db inst)).2 st.nodes with
          | some prev =>
            have hstep : gmdStep env c s st d
                = (st, [.connect d], some (.duplicateNode prev d)) := by
              simp only [gmdStep, hr]
              rw [if_neg hct, if_neg (show ¬(c = false) by
                simp [haccd]),
                if_neg (show ¬(st.locked.contains inst = true) by
                  simpa using hlk)]
              simp only [hdup]
            constructor
            · intro he
              rw [gmdLoop] at he
              simp only [hstep] at he
              cases he
            · intro e he
              rw [gmdLoop] at he
              simp only [hstep] at he
              cases he
              exact Or.inl ⟨prev, d, rfl⟩
          | none =>
            have hstep : gmdStep env c s st d
                = ({ st with
                      nodes := st.nodes ++ [((setup_database
                        env.runningVersion (env.fresh d) (env.db inst)).2, d)],
                      locked := inst :: st.locked,
                      txns := st.txns ++ ["setup-database:" ++ d] },
                   [.connect d], none) := by
              simp only [gmdStep, hr]
              rw [if_neg hct, if_neg (show ¬(c = false) by
                simp [haccd]),
                if_neg (show ¬(st.locked.contains inst = true) by
                  simpa using hlk)]
              simp only [hdup]
            have hinv2 := gmdInv_append_setup env P st d inst hr hctf hlk
              hdup hinv
            have hrec := ih (P ++ [d]) _
              (fun d1 hd1 => hres d1 (List.mem_cons_of_mem _ hd1))
              (fun d1 hd1 => hacc d1 (List.mem_cons_of_mem _ hd1))
              hinv2
            constructor
            · intro he
              rw [gmdLoop] at he ⊢
              simp only [hstep] at he ⊢
              have := hrec.1 he
              rwa [List.append_assoc, List.singleton_append] at this
            · intro e he
              rw [gmdLoop] at he
              simp only [hstep] at he
              exact hrec.2 e he

theorem managedRun_ok_of (pgOk : String → Bool) (txns : List String)
    (hpg : ∀ t, pgOk t = true) :
    (managedRun pgOk true txns).2 = none := by
  induction txns with
  | nil => rfl
  | cons t ts ih => simp [managedRun, hpg t, ih]

/-- C3 amended: for input DSNs that all resolve, whose configured instances
carry a node id and the running version (and implicit configuration allowed
for unconfigured ones), and with healthy commits, `get_managed_databases`
either returns a mapping with exactly one entry per distinct resolved
instance, or raises `DuplicateNode`, or raises `PossibleDeadlock` (the
advisory-lock guard, which fires instead of `DuplicateNode` when the
duplicated instance was unconfigured); it never silently folds two DSNs
onto the same node id. -/
theorem gmd_no_silent_duplicates (env : Env) (dsns : List String)
    (c s v : Bool)
    (hres : ∀ d ∈ dsns, (env.resolve d).isSome = true)
    (hacc : ∀ d ∈ dsns, ∀ inst, env.resolve d = some inst →
      NodeAcceptable env c inst)
    (hpg : ∀ t, env.pgOk t = true)
    (hstore : (env.storeHealthy &&
      (!v || env.storeClusterVersion == env.runningVersion)) = true) :
    (∀ m, (get_managed_databases env dsns c s v).1 = .ok m →
        m.length = (unique (dsns.filterMap env.resolve)).length)
    ∧ (∀ e, (get_managed_databases env dsns c s v).1 = .error e →
        (∃ a b, e = AdminError.duplicateNode a b)
        ∨ ∃ d, e = AdminError.possibleDeadlock d) := by
  unfold get_managed_databases
  by_cases hd : dsns.isEmpty
  · simp only [hd, if_true]
    constructor
    · intro m hm
      cases hm
      rw [List.isEmpty_iff.mp hd]
      rfl
    · intro e he
      exact Except.noConfusion he
  · simp only [hd, if_false]
    have hspec := gmdLoop_spec env c s dsns [] ⟨[], [], []⟩ hres hacc
      (gmdInv_nil env)
    cases hloop : (gmdLoop env c s dsns ⟨[], [], []⟩).2.2 with
    | some e =>
      simp only [hloop]
      constructor
      · intro m hm
        exact Except.noConfusion hm
      · intro e2 he2
        cases he2
        exact hspec.2 e hloop
    | none =>
      simp only [hloop]
      have hinv := hspec.1 hloop
      have hlen := hinv.1
      rw [List.nil_append] at hlen
      by_cases ht : (gmdLoop env c s dsns ⟨[], [], []⟩).1.txns.isEmpty
      · simp only [ht, if_true]
        constructor
        · intro m hm
          cases hm
          exact hlen
        · intro e he
          exact Except.noConfusion he
      · simp only [ht, if_false]
        cases hm2 : (managedRun env.pgOk
            (env.storeHealthy &&
              (!v || env.storeClusterVersion == env.runningVersion))
            (gmdLoop env c s dsns ⟨[], [], []⟩).1.txns).2 with
        | some e =>
          rw [hstore] at hm2
          rw [managedRun_ok_of env.pgOk _ hpg] at hm2
          exact Option.noConfusion hm2
        | none =>
          simp only [hm2]
          constructor
          · intro m hm
            cases hm
            exact hlen
          · intro e he
            exact Except.noConfusion he

theorem gmd_no_silent_duplicates_witness :
    ([("n0", "d1")] : List (String × String)).length
      = (unique (["d1"].filterMap envW.resolve)).length :=
  (gmd_no_silent_duplicates envW ["d1"] true false true
    (by intro d hd; simp only [List.mem_singleton] at hd; subst hd; rfl)
    (by
      intro d hd inst hinst
      simp only [List.mem_singleton] at hd
      subst hd
      have h0 : envW.resolve "d1" = some 0 := rfl
      rw [h0] at hinst
      cases hinst
      unfold NodeAcceptable
      rw [if_pos (show (envW.db 0).hasConfigTable = true from rfl)]
      exact ⟨rfl, rfl⟩)
    (fun _ => rfl) rfl).1 [("n0", "d1")] rfl

/-- C3 counterexample: two DSNs resolving to the same uninitialized node
(k = 1).  The acquirer raises `PossibleDeadlock` (the advisory-lock guard at
administration.py lines 199-201), not `DuplicateNode` as the claim states,
and does not return a map of size 1. -/
theorem gmd_duplicate_unconfigured_counterexample :
    (get_managed_databases envC3 ["a", "b"] true false true).1
        = .error (.possibleDeadlock "b")
    ∧ (unique (["a", "b"].filterMap envC3.resolve)).length = 1
    ∧ (get_managed_databases envC3 ["a", "b"] true false true).1
        ≠ .error (.duplicateNode "a" "b") := by
  refine ⟨rfl, rfl, ?_⟩
  intro h
  rw [show (get_managed_databases envC3 ["a", "b"] true false true).1
      = Except.error (AdminError.possibleDeadlock "b") from rfl] at h
  simp at h

/-- C6: for every table of a replication set configuration, the installed
trigger's `UPDATE OF` column list is `unique(primary_keys ++ columns)`
(duplicates removed, first-seen order: the code's inner
`unique(primary_keys)` pass is absorbed), and the audit function receives
four positional arguments: the queue name, the encoded (deduplicated)
primary-key list, the encoded column list, and the version fingerprint
`md5(canonical encoded bytes of the configuration)`. -/
theorem setup_triggers_columns (clusterName name : String) (cfg : SetCfg) :
    setup_triggers clusterName name cfg = cfg.tables.map (fun t =>
      { tableSchema := t.schema
        tableName := t.name
        updateOfColumns := unique (t.primary_keys ++ t.columns)
        argQueue := get_queue_name clusterName name
        argPrimaryKeys := pickleDumps (unique t.primary_keys)
        argColumns := pickleDumps (unique (t.primary_keys ++ t.columns))
        argVersion := md5 (serializeConfig cfg) }) := by
  unfold setup_triggers
  congr 1
  funext t
  simp only
  rw [unique_unique_append]
  rfl

theorem length_dropWhile_le {α : Type} (p : α → Bool) (l : List α) :
    (l.dropWhile p).length ≤ l.length := by
  induction l with
  | nil => exact le_rfl
  | cons a as ih =>
    by_cases h : p a
    · rw [List.dropWhile_cons_of_pos h]
      exact le_trans ih (Nat.le_succ _)
    · rw [List.dropWhile_cons_of_neg h]

theorem groupRunsF_congr {α κ : Type} [DecidableEq κ] (f : α → κ) (n : Nat) :
    ∀ (m : Nat) (l : List α), l.length ≤ n → l.length ≤ m →
      groupRunsF f n l = groupRunsF f m l := by
  induction n with
  | zero =>
    intro m l hn _
    match l with
    | [] => cases m <;> rfl
  | succ n ih =>
    intro m l hn hm
    match l with
    | [] => cases m <;> rfl
    | x :: xs =>
      match m with
      | m + 1 =>
        simp only [groupRunsF]
        congr 1
        have hlen := length_dropWhile_le
          (fun y => decide (f y = f x)) xs
        exact ih m _ (le_trans hlen (Nat.le_of_succ_le_succ hn))
          (le_trans hlen (Nat.le_of_succ_le_succ hm))

theorem groupRuns_nil {α κ : Type} [DecidableEq κ] (f : α → κ) :
    groupRuns f ([] : List α) = [] := rfl

theorem groupRuns_cons {α κ : Type} [DecidableEq κ] (f : α → κ) (x : α)
    (xs : List α) :
    groupRuns f (x :: xs)
      = (x, xs.takeWhile (fun y => f y = f x))
        :: groupRuns f (xs.dropWhile (fun y => f y = f x)) := by
  simp only [groupRuns, List.length_cons, groupRunsF]
  congr 1
  exact groupRunsF_congr f xs.length _ _
    (length_dropWhile_le _ _) le_rfl

theorem mutationRun_eq_spec (ms : List Message) :
    mutationRun ms = (groupMutations ms, groupTerminator ms) := by
  induction ms with
  | nil => rfl
  | cons m rest ih =>
    cases hop : m.op with
    | beginOp b =>
      have ht : isTerminalOp m = false := by simp [isTerminalOp, hop]
      simp only [mutationRun, hop, ih, groupMutations, groupTerminator,
        List.takeWhile_cons, List.find?_cons, ht, Bool.not_false, if_true]
      simp [mutationsOf, List.filterMap_cons, hop]
    | mutationOp d =>
      have ht : isTerminalOp m = false := by simp [isTerminalOp, hop]
      simp only [mutationRun, hop, ih, groupMutations, groupTerminator,
        List.takeWhile_cons, List.find?_cons, ht, Bool.not_false, if_true]
      simp [mutationsOf, List.filterMap_cons, hop]
    | commitOp =>
      have ht : isTerminalOp m = true := by simp [isTerminalOp, hop]
      simp only [mutationRun, hop, groupMutations, groupTerminator,
        List.takeWhile_cons, List.find?_cons, ht, Bool.not_true, if_false]
      simp [mutationsOf, hop]
    | rollbackOp =>
      have ht : isTerminalOp m = true := by simp [isTerminalOp, hop]
      simp only [mutationRun, hop, groupMutations, groupTerminator,
        List.takeWhile_cons, List.find?_cons, ht, Bool.not_true, if_false]
      simp [mutationsOf, hop]

theorem groupRuns_flatten {α κ : Type} [DecidableEq κ] (f : α → κ)
    (n : Nat) :
    ∀ l : List α, l.length ≤ n →
      (groupRuns f l).flatMap (fun g => g.1 :: g.2) = l := by
  induction n with
  | zero =>
    intro l hl
    match l with
    | [] => rfl
  | succ n ih =>
    intro l hl
    match l with
    | [] => rfl
    | x :: xs =>
      rw [groupRuns_cons, List.flatMap_cons]
      rw [ih _ (le_trans (length_dropWhile_le _ _)
        (Nat.le_of_succ_le_succ (by simpa using hl)))]
      rw [List.cons_append, List.takeWhile_append_dropWhile]

theorem groupRuns_key_const {α κ : Type} [DecidableEq κ] (f : α → κ)
    (n : Nat) :
    ∀ l : List α, l.length ≤ n →
      ∀ g ∈ groupRuns f l, ∀ y ∈ g.2, f y = f g.1 := by
  induction n with
  | zero =>
    intro l hl g hg
    match l with
    | [] => simp [groupRuns_nil] at hg
  | succ n ih =>
    intro l hl g hg y hy
    match l with
    | [] => simp [groupRuns_nil] at hg
    | x :: xs =>
      rw [groupRuns_cons] at hg
      rcases List.mem_cons.mp hg with hg1 | hg2
      · subst hg1
        have := List.mem_takeWhile_imp hy
        simpa using this
      · exact ih _ (le_trans (length_dropWhile_le _ _)
          (Nat.le_of_succ_le_succ (by simpa using hl))) g hg2 y hy

/-- C5 amended: `batched` yields one group per consecutive run of the
`(publisher, state batch id)` key (the groups partition the validated
stream in order and each group's members share its key); each group's
mutation iterator yields exactly the group's mutations preceding the
group's FIRST terminal operation and terminates according to that first
terminal (normal return on `Commit`, `TransactionCancelled` on `Rollback`,
`TransactionAborted` when the group has no terminal); for the stream
`[Begin(b=1), Mutation(m1)]` followed by end of input it yields one group
producing `m1` and then `TransactionAborted`. -/
theorem batched_iterator_fidelity (stream : List (TxState × Message)) :
    (groupRuns batchKey stream).flatMap (fun g => g.1 :: g.2) = stream
    ∧ (∀ g ∈ groupRuns batchKey stream, ∀ y ∈ g.2, batchKey y = batchKey g.1)
    ∧ batched stream = (groupRuns batchKey stream).map (fun g =>
        (stateBatchId g.1.1,
         (groupMutations (g.1.2 :: g.2.map (fun sm => sm.2)),
          groupTerminator (g.1.2 :: g.2.map (fun sm => sm.2)))))
    ∧ validate_transaction_state s5Input = some s5Validated
    ∧ batched s5Validated = [(some ⟨1, 0⟩, ([7], Terminator.aborted))] := by
  refine ⟨groupRuns_flatten _ stream.length stream le_rfl,
    groupRuns_key_const _ stream.length stream le_rfl, ?_, rfl, rfl⟩
  unfold batched
  congr 1
  funext g
  rw [mutationRun_eq_spec]

theorem batched_iterator_fidelity_witness :
    batchKey (TxState.inTransaction 0 ⟨1, 0⟩,
        (⟨0, 1, BatchOp.mutationOp 7⟩ : Message))
      = batchKey (TxState.inTransaction 0 ⟨1, 0⟩,
        (⟨0, 0, BatchOp.beginOp ⟨1, 0⟩⟩ : Message)) :=
  (batched_iterator_fidelity s5Validated).2.1
    ((TxState.inTransaction 0 ⟨1, 0⟩,
      (⟨0, 0, BatchOp.beginOp ⟨1, 0⟩⟩ : Message)),
     [(TxState.inTransaction 0 ⟨1, 0⟩,
       (⟨0, 1, BatchOp.mutationOp 7⟩ : Message))])
    (by decide) _ (by decide)

/-- C5 counterexample: the rollback-retry stream is accepted by the
validator (a rolled-back batch may be retried by the same publisher under
the same id), yet `batched` yields a single group whose iterator produces
only `10` and raises `TransactionCancelled` — although the group contains a
`Commit` and the input's mutation subsequence is `[10, 11]`.  The claim's
concatenation property and its "normal return if the group contains a
Commit" clause both fail on this validated input. -/
theorem batched_rollback_retry_counterexample :
    validate_transaction_state c5Input = some c5Validated
    ∧ batched c5Validated = [(some ⟨1, 0⟩, ([10], Terminator.cancelled))]
    ∧ mutationsOf c5Input = [10, 11]
    ∧ (⟨0, 5, BatchOp.commitOp⟩ : Message) ∈ c5Input
    ∧ ([10] : List Nat) ≠ [10, 11]
    ∧ Terminator.cancelled ≠ Terminator.committed :=
  ⟨rfl, rfl, rfl, by decide, by decide, by decide⟩

/-- C7 (code bug): a consumer blocked acquiring its ownership lease ignores
a stop request for as long as the lease stays unavailable — after any
number of ticks it is still in the acquiring phase and never reaches the
stopped state, because `Lock.acquire()` at worker.py line 80 blocks without
consulting the stop flag (its own TODO comment records the intent).  By
contrast the main loop honors a stop request within one tick. -/
theorem consumer_stop_blocked_on_acquire (n : Nat) :
    (consumerIter ⟨false, true⟩ n
        (stop_async ⟨CPhase.acquiringLease, false, false⟩)).phase
      = CPhase.acquiringLease
    ∧ (consumerIter ⟨false, true⟩ n
        (stop_async ⟨CPhase.acquiringLease, false, false⟩)).phase
      ≠ CPhase.stopped
    ∧ consumerStep ⟨false, true⟩ (stop_async ⟨CPhase.looping, false, true⟩)
      = ⟨CPhase.stopped, true, false⟩ := by
  have hfix : ∀ m : Nat,
      consumerIter ⟨false, true⟩ m
        (stop_async ⟨CPhase.acquiringLease, false, false⟩)
      = stop_async ⟨CPhase.acquiringLease, false, false⟩ := by
    intro m
    induction m with
    | zero => rfl
    | succ m ih =>
      have hstep : consumerStep ⟨false, true⟩
          (stop_async ⟨CPhase.acquiringLease, false, false⟩)
          = stop_async ⟨CPhase.acquiringLease, false, false⟩ := rfl
      rw [consumerIter, hstep, ih]
  refine ⟨by rw [hfix n]; rfl, by rw [hfix n]; decide, rfl⟩

theorem coordStep_stopped (st : CoordState) (t : Tick)
    (h : st.stopped = true) : coordStep st t = st := by
  unfold coordStep
  rw [if_pos h]

/-- C9 amended: a future whose command the Coordinator dequeues completes
with the operation's outcome; but once the Coordinator stops, its state
never changes again, so a command still queued at that moment keeps its
future pending forever — it is never completed and in particular never
completed with `Cancelled` (no code path cancels futures). -/
theorem coordinator_future_completion (ticks : List Tick) (cmd : Nat) :
    (cmd ∈ (coordRun ticks).processed →
      futureState (coordRun ticks) cmd = .completedOutcome)
    ∧ ((coordRun ticks).stopped = true →
        ∀ more, coordRun (ticks ++ more) = coordRun ticks)
    ∧ futureState (coordRun ticks) cmd ≠ .cancelled
    ∧ ((coordRun ticks).stopped = true → cmd ∈ (coordRun ticks).queue →
        cmd ∉ (coordRun ticks).processed →
        ∀ more, futureState (coordRun (ticks ++ more)) cmd = .pending) := by
  have hfrozen : (coordRun ticks).stopped = true →
      ∀ more, coordRun (ticks ++ more) = coordRun ticks := by
    intro hstop more
    unfold coordRun
    rw [List.foldl_append]
    induction more with
    | nil => rfl
    | cons t ts ih =>
      rw [List.foldl_cons,
        coordStep_stopped _ _ (by exact hstop), ih]
  refine ⟨?_, hfrozen, ?_, ?_⟩
  · intro hmem
    unfold futureState
    rw [if_pos hmem]
  · unfold futureState
    by_cases hmem : cmd ∈ (coordRun ticks).processed
    · rw [if_pos hmem]; decide
    · rw [if_neg hmem]; decide
  · intro hstop _ hnot more
    rw [hfrozen hstop more]
    unfold futureState
    rw [if_neg hnot]

theorem coordinator_future_completion_witness :
    futureState (coordRun ([⟨[7], true⟩] ++ [⟨[], false⟩])) 7
      = FutureState.pending :=
  (coordinator_future_completion [⟨[7], true⟩] 7).2.2.2
    (by decide) (by decide) (by decide) [⟨[], false⟩]

/-- C9 counterexample: one command (7) is enqueued and the stop flag is set
before the loop drains it.  The run stops with the command still queued and
its future pending — not completed with an outcome and not cancelled; by
the frozen-after-stop property it stays pending forever. -/
theorem coordinator_queued_future_counterexample :
    (coordRun [⟨[7], true⟩]).stopped = true
    ∧ 7 ∈ (coordRun [⟨[7], true⟩]).queue
    ∧ futureState (coordRun [⟨[7], true⟩]) 7 = FutureState.pending
    ∧ FutureState.pending ≠ FutureState.cancelled
    ∧ FutureState.pending ≠ FutureState.completedOutcome := by
  decide

end Pgshovel
